import Mathlib

/-!
# A shallow embedding of `libutils/Looper.cpp` (android-native-mac-ports)

This file embeds the per-thread event loop of `src/libutils/Looper.cpp` into
Lean and proves the specification claims about it.  The epoll configuration
(`HAVE_EPOLL`) is the one modelled; the kqueue configuration shares the public
surface.  Kernel interactions (`epoll_ctl`, `epoll_wait`, the monotonic clock,
callback return values) are external to the process and are supplied to each
modelled operation as explicit inputs, so every definition is an executable
function of its state and those inputs.

Machine-integer notes: sequence numbers are C++ `uint64_t` values that the
source only ever increments (the spec calls them "monotonically increasing"),
so they are embedded as `Nat`; file descriptors, identifiers, poll results and
nanosecond times are C++ `int`/`int64_t` values embedded as `Int` (no
arithmetic in the modelled paths can overflow them); event masks are
non-negative bit sets embedded as `Nat`.
-/

namespace LooperModel

/-! ## Constants

`POLL_WAKE` .. `POLL_ERROR` and the `EVENT_*` bits are declared in
`utils/Looper.h`, which is not among the sources; their values are taken from
the spec (section 6: "Poll result codes: WAKE = -1, CALLBACK = -2,
TIMEOUT = -3, ERROR = -4" and "Event bits: INPUT = 1<<0, OUTPUT = 1<<1,
ERROR = 1<<2, HANGUP = 1<<3").  `WAKE_EVENT_FD_SEQ` is `Looper.cpp` line 28.
The epoll bit values are the Linux ABI constants. -/

def POLL_WAKE : Int := -1
def POLL_CALLBACK : Int := -2
def POLL_TIMEOUT : Int := -3
def POLL_ERROR : Int := -4

def EVENT_INPUT : Nat := 1
def EVENT_OUTPUT : Nat := 2
def EVENT_ERROR : Nat := 4
def EVENT_HANGUP : Nat := 8

def EPOLLIN : Nat := 1
def EPOLLOUT : Nat := 4
def EPOLLERR : Nat := 8
def EPOLLHUP : Nat := 16

def WAKE_EVENT_FD_SEQ : Nat := 1

/-- `LLONG_MAX`, the sentinel stored in `mNextMessageUptime` when no message is
pending. -/
def LLONG_MAX : Int := 9223372036854775807

/-! ## Association lists

`mRequests` is a `std::unordered_map<SequenceNumber, Request>` and
`mSequenceNumberByFd` a `std::unordered_map<int, SequenceNumber>`.  They are
embedded as association lists with unique keys; `alookup`, `aerase`, `aset`
model `find`, `erase` and `it->second = v`.  `emplace` is modelled by consing,
which matches `unordered_map::emplace` whenever the key is absent — the source
only emplaces fresh sequence numbers and absent fds. -/

def alookup {α β : Type} [DecidableEq α] : List (α × β) → α → Option β
  | [], _ => none
  | (k, v) :: rest, a => if k = a then some v else alookup rest a

def aerase {α β : Type} [DecidableEq α] : List (α × β) → α → List (α × β)
  | [], _ => []
  | (k, v) :: rest, a => if k = a then rest else (k, v) :: aerase rest a

def aset {α β : Type} [DecidableEq α] : List (α × β) → α → β → List (α × β)
  | [], _, _ => []
  | (k, v) :: rest, a, b => if k = a then (a, b) :: rest else (k, v) :: aset rest a b

def akeys {α β : Type} (m : List (α × β)) : List α := m.map Prod.fst

/-! ## Data model -/

/-- One active registration (`Looper.h` struct `Request`).  The
`sp<LooperCallback>` is represented by an opaque identity: `none` models a
null callback, `some c` a callback object named `c`. -/
structure Request where
  fd : Int
  ident : Int
  events : Nat
  callback : Option Nat
  data : Nat
  deriving DecidableEq, Repr

/-- A deferred delivery record (`Looper.h` struct `Response`). -/
structure Response where
  seq : Nat
  events : Nat
  request : Request
  deriving DecidableEq, Repr

/-- A timed message (`Looper.h` struct `MessageEnvelope`); the only observed
field of `Message` is `what`. -/
structure MessageEnvelope where
  uptime : Int
  handler : Nat
  what : Int
  deriving DecidableEq, Repr

/-- The mutable state of a `Looper`, mirroring its member variables.  Kernel
handles (`mWakeEventFd`, `mEpollFd`) and the lock carry no in-process data and
are omitted; `mPolling` is retained for completeness. -/
structure LooperState where
  mAllowNonCallbacks : Bool
  mSendingMessage : Bool
  mPolling : Bool
  mEpollRebuildRequired : Bool
  mNextRequestSeq : Nat
  mResponses : List Response
  mResponseIndex : Nat
  mRequests : List (Nat × Request)
  mSequenceNumberByFd : List (Int × Nat)
  mMessageEnvelopes : List MessageEnvelope
  mNextMessageUptime : Int
  deriving DecidableEq, Repr

/-- The state built by the constructor `Looper::Looper`. -/
def initialLooper (allowNonCallbacks : Bool) : LooperState :=
  { mAllowNonCallbacks := allowNonCallbacks
    mSendingMessage := false
    mPolling := false
    mEpollRebuildRequired := false
    mNextRequestSeq := WAKE_EVENT_FD_SEQ + 1
    mResponses := []
    mResponseIndex := 0
    mRequests := []
    mSequenceNumberByFd := []
    mMessageEnvelopes := []
    mNextMessageUptime := LLONG_MAX }

/-! ## Kernel outcomes

The results of the `epoll_ctl` calls are external inputs.  Each constructor
names the `errno` class the source distinguishes. -/

/-- Outcome of an `EPOLL_CTL_ADD` / `EPOLL_CTL_MOD` call in `addFd`. -/
inductive CtlResult where
  | ok : CtlResult
  | enoent : CtlResult
  | otherFailure : CtlResult
  deriving DecidableEq, Repr

/-- Outcome of the `EPOLL_CTL_DEL` call in `removeSequenceNumberLocked`:
success, `EBADF`-or-`ENOENT`, or any other failure. -/
inductive DelResult where
  | ok : DelResult
  | badfdOrNoent : DelResult
  | otherFailure : DelResult
  deriving DecidableEq, Repr

/-- The kernel results an `addFd` call may consume: the `EPOLL_CTL_ADD` on the
fresh-fd path, the `EPOLL_CTL_MOD` on the already-registered path, and the
fallback `EPOLL_CTL_ADD` attempted when the MOD fails with `ENOENT`. -/
structure AddFdKernel where
  addResult : CtlResult
  modResult : CtlResult
  fallbackAddResult : CtlResult
  deriving DecidableEq, Repr

/-! ## Table operations (`addFd`, `removeFd`, `removeSequenceNumberLocked`) -/

/-- `Looper::scheduleEpollRebuildLocked` (lines 222-230): set the flag if it
is not already set.  The accompanying `wake()` only touches the wake fd. -/
def scheduleEpollRebuildLocked (s : LooperState) : LooperState :=
  if s.mEpollRebuildRequired then s else { s with mEpollRebuildRequired := true }

/-- Sequence-number allocation in `Looper::addFd` (lines 546-547): skip the
reserved wake sequence number, take the counter value, advance the counter. -/
def allocSeq (s : LooperState) : LooperState × Nat :=
  let s := if s.mNextRequestSeq = WAKE_EVENT_FD_SEQ
           then { s with mNextRequestSeq := s.mNextRequestSeq + 1 } else s
  ({ s with mNextRequestSeq := s.mNextRequestSeq + 1 }, s.mNextRequestSeq)

/-- The fresh-fd branch of `addFd` (lines 558-565): `EPOLL_CTL_ADD`, then
emplace into both tables; on kernel failure return `-1` with the tables
untouched. -/
def addFdNoEpoch (s : LooperState) (seq : Nat) (request : Request) (k : AddFdKernel) :
    LooperState × Int :=
  match k.addResult with
  | CtlResult.ok =>
    ({ s with mRequests := (seq, request) :: s.mRequests
              mSequenceNumberByFd := (request.fd, seq) :: s.mSequenceNumberByFd }, 1)
  | _ => (s, -1)

/-- The table mutation of a successful replacing `addFd` (lines 600-603):
erase the old `(seq, Request)` entry, emplace the new one, repoint the fd
index at the new sequence number. -/
def addFdReplaceStored (s : LooperState) (seq oldSeq : Nat) (request : Request) :
    LooperState :=
  { s with mRequests := (seq, request) :: aerase s.mRequests oldSeq
           mSequenceNumberByFd := aset s.mSequenceNumberByFd request.fd seq }

/-- The already-registered branch of `addFd` (lines 566-604): `EPOLL_CTL_MOD`,
falling back to `EPOLL_CTL_ADD` plus a scheduled rebuild on `ENOENT`; on
kernel failure return `-1` with the tables untouched. -/
def addFdReplace (s : LooperState) (seq oldSeq : Nat) (request : Request)
    (k : AddFdKernel) : LooperState × Int :=
  match k.modResult with
  | CtlResult.ok => (addFdReplaceStored s seq oldSeq request, 1)
  | CtlResult.enoent =>
    match k.fallbackAddResult with
    | CtlResult.ok =>
      (scheduleEpollRebuildLocked (addFdReplaceStored s seq oldSeq request), 1)
    | _ => (s, -1)
  | CtlResult.otherFailure => (s, -1)

/-- The `Request` built by `addFd` (lines 549-554), including the ident
forcing of line 540: a supplied callback overrides `ident` with
`POLL_CALLBACK`. -/
def mkRequest (fd ident : Int) (events : Nat) (callback : Option Nat) (data : Nat) :
    Request :=
  { fd := fd
    ident := if callback.isSome then POLL_CALLBACK else ident
    events := events
    callback := callback
    data := data }

/-- `Looper::addFd` (lines 523-646, epoll path).  Returns the new state and
the `int` result.  Argument checks precede any mutation; the sequence counter
is advanced before the kernel calls, so a kernel failure consumes a sequence
number but leaves both tables untouched. -/
def addFd (s : LooperState) (fd : Int) (ident : Int) (events : Nat)
    (callback : Option Nat) (data : Nat) (k : AddFdKernel) : LooperState × Int :=
  if callback.isNone ∧ s.mAllowNonCallbacks = false then (s, -1)
  else if callback.isNone ∧ ident < 0 then (s, -1)
  else
    match alookup (allocSeq s).1.mSequenceNumberByFd fd with
    | none =>
      addFdNoEpoch (allocSeq s).1 (allocSeq s).2 (mkRequest fd ident events callback data) k
    | some oldSeq =>
      addFdReplace (allocSeq s).1 (allocSeq s).2 oldSeq
        (mkRequest fd ident events callback data) k

/-- The table erasure of `removeSequenceNumberLocked` (lines 715-718): both
entries go before the `EPOLL_CTL_DEL` is attempted. -/
def removeSequenceNumberErased (s : LooperState) (seq : Nat) (request : Request) :
    LooperState :=
  { s with mRequests := aerase s.mRequests seq
           mSequenceNumberByFd := aerase s.mSequenceNumberByFd request.fd }

/-- `Looper::removeSequenceNumberLocked` (lines 704-757).  Both table entries
are erased before the `EPOLL_CTL_DEL`, so they are gone in the result for
every kernel outcome. -/
def removeSequenceNumberLocked (s : LooperState) (seq : Nat) (k : DelResult) :
    LooperState × Int :=
  match alookup s.mRequests seq with
  | none => (s, 0)
  | some request =>
    match k with
    | DelResult.ok => (removeSequenceNumberErased s seq request, 1)
    | DelResult.badfdOrNoent =>
      (scheduleEpollRebuildLocked (removeSequenceNumberErased s seq request), 1)
    | DelResult.otherFailure =>
      (scheduleEpollRebuildLocked (removeSequenceNumberErased s seq request), -1)

/-- `Looper::removeFd` (lines 663-670). -/
def removeFd (s : LooperState) (fd : Int) (k : DelResult) : LooperState × Int :=
  match alookup s.mSequenceNumberByFd fd with
  | none => (s, 0)
  | some seq => removeSequenceNumberLocked s seq k

/-! ## Message queue operations -/

/-- The insertion index computed by the scan loop of
`Looper::sendMessageAtTime` (lines 781-784): the number of leading envelopes
whose `uptime` is not strictly greater than the new deadline. -/
def insertPosition (uptime : Int) : List MessageEnvelope → Nat
  | [] => 0
  | e :: rest => if e.uptime ≤ uptime then insertPosition uptime rest + 1 else 0

/-- `Looper::sendMessageAtTime` (lines 770-802).  Returns the new state and
whether `wake()` was called. -/
def sendMessageAtTime (s : LooperState) (uptime : Int) (handler : Nat) (what : Int) :
    LooperState × Bool :=
  let i := insertPosition uptime s.mMessageEnvelopes
  let env : MessageEnvelope := { uptime := uptime, handler := handler, what := what }
  let s' := { s with mMessageEnvelopes :=
      s.mMessageEnvelopes.take i ++ env :: s.mMessageEnvelopes.drop i }
  if s.mSendingMessage then (s', false) else (s', decide (i = 0))

/-- `Looper::removeMessages(handler)` (lines 804-819): the tail-to-head
removal loop deletes exactly the matching envelopes. -/
def removeMessagesByHandler (s : LooperState) (handler : Nat) : LooperState :=
  { s with mMessageEnvelopes :=
      s.mMessageEnvelopes.filter (fun e => e.handler != handler) }

/-- `Looper::removeMessages(handler, what)` (lines 821-837). -/
def removeMessagesByHandlerWhat (s : LooperState) (handler : Nat) (what : Int) :
    LooperState :=
  { s with mMessageEnvelopes :=
      s.mMessageEnvelopes.filter (fun e => !(e.handler == handler && e.what == what)) }

/-! ## Timeout computation

`toMillisecondTimeoutDelay` lives in `libutils/Timers.cpp`, which is not among
the sources. -/

/-- Modelled from the spec: `toMillisecondTimeoutDelay` (declared in
`utils/Timers.h`, implemented in the absent `libutils/Timers.cpp`) converts
the gap between a reference time and a deadline, both in nanoseconds, to a
non-negative millisecond count — "the time until the head message" used to
tighten the wait timeout; a deadline at or before the reference yields `0`
(the message is due).  Sub-millisecond remainders round up, matching the
spec's rule that a message is "delivered no earlier than `t`". -/
def toMillisecondTimeoutDelay (referenceTime endTime : Int) : Int :=
  if endTime ≤ referenceTime then 0
  else (endTime - referenceTime + 999999) / 1000000

/-- The timeout-adjustment block at the top of `Looper::pollInner`
(lines 273-285): `messageTimeoutMillis` is
`toMillisecondTimeoutDelay now nextMessageUptime`. -/
def adjustTimeout (timeoutMillis nextMessageUptime now : Int) : Int :=
  if timeoutMillis ≠ 0 ∧ nextMessageUptime ≠ LLONG_MAX then
    if 0 ≤ toMillisecondTimeoutDelay now nextMessageUptime
        ∧ (timeoutMillis < 0 ∨ toMillisecondTimeoutDelay now nextMessageUptime < timeoutMillis)
    then toMillisecondTimeoutDelay now nextMessageUptime
    else timeoutMillis
  else timeoutMillis

/-! ## The inner poll -/

/-- One item returned by `epoll_wait`: the sequence number stored in
`data.u64` and the raw epoll event bits. -/
structure KernelItem where
  seq : Nat
  events : Nat
  deriving DecidableEq, Repr

/-- The outcome of the `epoll_wait` call as the source case-splits on it:
failure with `errno == EINTR`, failure with any other `errno`, or a
(possibly empty) batch of event items; `ready []` is `eventCount == 0`. -/
inductive WaitOutcome where
  | intr : WaitOutcome
  | failed : WaitOutcome
  | ready : List KernelItem → WaitOutcome
  deriving DecidableEq, Repr

/-- The epoll-bits-to-event-bits translation of `pollInner` (lines 372-375). -/
def epollToLooperEvents (epollEvents : Nat) : Nat :=
  (if epollEvents &&& EPOLLIN ≠ 0 then EVENT_INPUT else 0) |||
  (if epollEvents &&& EPOLLOUT ≠ 0 then EVENT_OUTPUT else 0) |||
  (if epollEvents &&& EPOLLERR ≠ 0 then EVENT_ERROR else 0) |||
  (if epollEvents &&& EPOLLHUP ≠ 0 then EVENT_HANGUP else 0)

/-- The event-translation loop of `pollInner` (lines 342-396): the wake
sequence number only drains the wake fd, an unregistered sequence number is
dropped with a warning, a registered one appends a `Response`. -/
def buildResponses (requests : List (Nat × Request)) : List KernelItem → List Response
  | [] => []
  | item :: rest =>
    if item.seq = WAKE_EVENT_FD_SEQ then buildResponses requests rest
    else
      match alookup requests item.seq with
      | some request =>
        { seq := item.seq, events := epollToLooperEvents item.events, request := request }
          :: buildResponses requests rest
      | none => buildResponses requests rest

/-- Result of the message-drain loop. -/
structure DrainResult where
  dispatched : List MessageEnvelope
  remaining : List MessageEnvelope
  nextUptime : Int
  deriving DecidableEq, Repr

/-- The due-message loop after `Done:` in `pollInner` (lines 399-431).
`systemTime` is re-sampled every iteration, modelled by the `clock` input
indexed by the iteration count `k`. -/
def drainMessages (clock : Nat → Int) : Nat → List MessageEnvelope → DrainResult
  | _, [] => { dispatched := [], remaining := [], nextUptime := LLONG_MAX }
  | k, env :: rest =>
    if env.uptime ≤ clock k then
      let d := drainMessages clock (k + 1) rest
      { d with dispatched := env :: d.dispatched }
    else
      { dispatched := [], remaining := env :: rest, nextUptime := env.uptime }

/-- A callback invocation observed during `pollInner`, recording the values
passed to `handleEvent` together with the sequence number of the `Response`
it came from. -/
structure Invocation where
  seq : Nat
  fd : Int
  events : Nat
  data : Nat
  deriving DecidableEq, Repr

/-- The response-callback loop of `pollInner` (lines 437-461): every response
whose stored `ident` is `POLL_CALLBACK` is invoked; a `0` return unregisters
its sequence number.  `cbRet i` is the value returned by the callback invoked
for the response at index `i`, and `delK i` the kernel outcome of the delete
that a `0` return triggers. -/
def runCallbacks (cbRet : Nat → Int) (delK : Nat → DelResult) :
    Nat → List Response → LooperState → LooperState × List Invocation
  | _, [], s => (s, [])
  | i, response :: rest, s =>
    if response.request.ident = POLL_CALLBACK then
      ((runCallbacks cbRet delK (i + 1) rest
          (if cbRet i = 0
           then (removeSequenceNumberLocked s response.seq (delK i)).1
           else s)).1,
       { seq := response.seq, fd := response.request.fd
         events := response.events, data := response.request.data }
         :: (runCallbacks cbRet delK (i + 1) rest
          (if cbRet i = 0
           then (removeSequenceNumberLocked s response.seq (delK i)).1
           else s)).2)
    else runCallbacks cbRet delK (i + 1) rest s

/-- The external inputs one `pollInner` call consumes: the clock sample for
the timeout adjustment, the `epoll_wait` outcome, the clock samples of the
message-drain loop, and the callback return values with the kernel outcomes
of the deletes they may trigger. -/
structure PollInput where
  now0 : Int
  wait : WaitOutcome
  clock : Nat → Int
  cbRet : Nat → Int
  delKernel : Nat → DelResult

/-- What one `pollInner` call produced. -/
structure PollInnerResult where
  state : LooperState
  result : Int
  invoked : List Invocation
  dispatched : List MessageEnvelope
  waitTimeout : Int

/-- The post-wait case split of `pollInner` (lines 312-335): a required
rebuild wins over everything and skips event translation (`rebuildEpollLocked`
itself only re-populates the kernel set); then `EINTR` keeps `POLL_WAKE`, any
other wait failure gives `POLL_ERROR`, zero events give `POLL_TIMEOUT`, and a
non-empty batch is translated with the result still `POLL_WAKE`. -/
def pollInnerBase (s : LooperState) (wait : WaitOutcome) : LooperState × Int :=
  if s.mEpollRebuildRequired then
    ({ s with mEpollRebuildRequired := false }, POLL_WAKE)
  else
    match wait with
    | WaitOutcome.intr => (s, POLL_WAKE)
    | WaitOutcome.failed => (s, POLL_ERROR)
    | WaitOutcome.ready items =>
      if items = [] then (s, POLL_TIMEOUT)
      else ({ s with mResponses := buildResponses s.mRequests items }, POLL_WAKE)

/-- The state at the top of `pollInner` just before the kernel wait
(lines 288-293): the response buffer and index are cleared; `mPolling` is
`true` only while blocked in the wait and is `false` again afterwards. -/
def innerStart (s : LooperState) : LooperState :=
  { s with mResponses := [], mResponseIndex := 0, mPolling := false }

/-- The post-wait state and preliminary result of `pollInner`. -/
def innerAfterWait (s : LooperState) (w : WaitOutcome) : LooperState × Int :=
  pollInnerBase (innerStart s) w

/-- The message drain of this `pollInner` call. -/
def innerDrain (s : LooperState) (inp : PollInput) : DrainResult :=
  drainMessages inp.clock 0 (innerAfterWait s inp.wait).1.mMessageEnvelopes

/-- The state after the due-message loop (lines 399-431): the dispatched
prefix is removed, `mNextMessageUptime` records the next deadline (or
`LLONG_MAX`), and `mSendingMessage`, toggled around each handler call, ends
`false` when at least one message was dispatched. -/
def innerPostMsg (s : LooperState) (inp : PollInput) : LooperState :=
  { (innerAfterWait s inp.wait).1 with
      mMessageEnvelopes := (innerDrain s inp).remaining
      mNextMessageUptime := (innerDrain s inp).nextUptime
      mSendingMessage :=
        if (innerDrain s inp).dispatched = []
        then (innerAfterWait s inp.wait).1.mSendingMessage else false }

/-- `Looper::pollInner` (lines 268-463), assembled from the phases above:
timeout adjustment, kernel wait and event translation, message drain, then
the response-callback loop; a dispatched message or invoked callback turns
the result into `POLL_CALLBACK`. -/
def pollInner (s : LooperState) (timeoutMillis : Int) (inp : PollInput) : PollInnerResult :=
  { state := (runCallbacks inp.cbRet inp.delKernel 0
      (innerPostMsg s inp).mResponses (innerPostMsg s inp)).1
    result :=
      if (runCallbacks inp.cbRet inp.delKernel 0
          (innerPostMsg s inp).mResponses (innerPostMsg s inp)).2 = []
      then
        (if (innerDrain s inp).dispatched = [] then (innerAfterWait s inp.wait).2
         else POLL_CALLBACK)
      else POLL_CALLBACK
    invoked := (runCallbacks inp.cbRet inp.delKernel 0
      (innerPostMsg s inp).mResponses (innerPostMsg s inp)).2
    dispatched := (innerDrain s inp).dispatched
    waitTimeout := adjustTimeout timeoutMillis s.mNextMessageUptime inp.now0 }

/-! ## `pollOnce` -/

/-- The replay loop at the top of `Looper::pollOnce` (lines 235-252): scan the
responses from the current index, skipping callback responses, and stop at the
first one with a non-negative `ident`; the returned `Nat` is the value of
`mResponseIndex` after the loop stops (one past the hit). -/
def scanResponses : List Response → Nat → Option (Response × Nat)
  | [], _ => none
  | r :: rest, i =>
    if 0 ≤ r.request.ident then some (r, i + 1) else scanResponses rest (i + 1)

/-- What one `pollOnce` call produced: the returned value, the values stored
through the out parameters (zero-filled when a result code is returned), and
whether an inner poll ran. -/
structure PollOnceResult where
  state : LooperState
  ret : Int
  outFd : Int
  outEvents : Nat
  outData : Nat
  invoked : List Invocation
  dispatched : List MessageEnvelope
  usedInner : Bool

/-- The second `pollOnce` loop iteration: run the inner poll on a state whose
replay loop has exhausted its pending responses, then replay the fresh batch,
returning the first non-negative identifier if one exists and otherwise the
inner poll's result with zero-filled out parameters. -/
def pollOnceInnerStep (s : LooperState) (timeoutMillis : Int) (inp : PollInput) :
    PollOnceResult :=
  match scanResponses (pollInner s timeoutMillis inp).state.mResponses 0 with
  | some (r, j) =>
    { state := { (pollInner s timeoutMillis inp).state with mResponseIndex := j }
      ret := r.request.ident
      outFd := r.request.fd, outEvents := r.events, outData := r.request.data
      invoked := (pollInner s timeoutMillis inp).invoked
      dispatched := (pollInner s timeoutMillis inp).dispatched
      usedInner := true }
  | none =>
    { state := { (pollInner s timeoutMillis inp).state with
        mResponseIndex := (pollInner s timeoutMillis inp).state.mResponses.length }
      ret := (pollInner s timeoutMillis inp).result
      outFd := 0, outEvents := 0, outData := 0
      invoked := (pollInner s timeoutMillis inp).invoked
      dispatched := (pollInner s timeoutMillis inp).dispatched
      usedInner := true }

/-- `Looper::pollOnce` (lines 232-266).  The source loops `for (;;)`; because
`pollInner` never returns `0` (theorem `pollInner_result_ne_zero`), the loop
body runs at most twice — once replaying leftover responses, once after a
single inner poll — which the definition unrolls. -/
def pollOnce (s : LooperState) (timeoutMillis : Int) (inp : PollInput) : PollOnceResult :=
  match scanResponses (s.mResponses.drop s.mResponseIndex) s.mResponseIndex with
  | some (r, j) =>
    { state := { s with mResponseIndex := j }
      ret := r.request.ident
      outFd := r.request.fd, outEvents := r.events, outData := r.request.data
      invoked := [], dispatched := [], usedInner := false }
  | none =>
    pollOnceInnerStep { s with mResponseIndex := s.mResponses.length } timeoutMillis inp

/-! ## `pollAll`

The successive `pollOnce` results and the clock samples of the deadline loop
are supplied as lists; an empty list means the modelled execution window
ended, giving `none`. -/

/-- The `timeoutMillis <= 0` branch of `Looper::pollAll` (lines 466-471). -/
def pollAllLoopZero : List Int → Option Int
  | [] => none
  | r :: rest => if r = POLL_CALLBACK then pollAllLoopZero rest else some r

/-- The positive-timeout branch of `Looper::pollAll` (lines 472-488):
after each `POLL_CALLBACK` result the remaining time to `endTime` is
recomputed and a zero remainder returns `POLL_TIMEOUT`. -/
def pollAllLoopPos (endTime : Int) : List Int → List Int → Option Int
  | r :: rs, now :: ns =>
    if r ≠ POLL_CALLBACK then some r
    else if toMillisecondTimeoutDelay now endTime = 0 then some POLL_TIMEOUT
    else pollAllLoopPos endTime rs ns
  | _, _ => none

/-- `Looper::pollAll` (lines 465-489).  `milliseconds_to_nanoseconds` from the
absent `utils/Timers.h` is the spec's nanosecond clock convention,
`ms * 1000000`. -/
def pollAll (timeoutMillis now0 : Int) (results : List Int) (clocks : List Int) :
    Option Int :=
  if timeoutMillis ≤ 0 then pollAllLoopZero results
  else pollAllLoopPos (now0 + timeoutMillis * 1000000) results clocks

/-! ## Operation traces

A trace interleaves the public operations on one looper; each carries the
external inputs it consumes.  `applyOp` returns the callback invocations the
operation performed, the observable that claim C2 is about. -/

inductive Op where
  | addFd (fd ident : Int) (events : Nat) (callback : Option Nat) (data : Nat)
      (k : AddFdKernel) : Op
  | removeFd (fd : Int) (k : DelResult) : Op
  | sendMessageAtTime (uptime : Int) (handler : Nat) (what : Int) : Op
  | removeMessagesByHandler (handler : Nat) : Op
  | removeMessagesByHandlerWhat (handler : Nat) (what : Int) : Op
  | pollOnce (timeoutMillis : Int) (inp : PollInput) : Op

def applyOp (s : LooperState) : Op → LooperState × List Invocation
  | Op.addFd fd ident events callback data k => ((addFd s fd ident events callback data k).1, [])
  | Op.removeFd fd k => ((removeFd s fd k).1, [])
  | Op.sendMessageAtTime uptime handler what => ((sendMessageAtTime s uptime handler what).1, [])
  | Op.removeMessagesByHandler handler => (removeMessagesByHandler s handler, [])
  | Op.removeMessagesByHandlerWhat handler what => (removeMessagesByHandlerWhat s handler what, [])
  | Op.pollOnce timeoutMillis inp =>
    ((pollOnce s timeoutMillis inp).state, (pollOnce s timeoutMillis inp).invoked)

/-- Run a trace, accumulating every callback invocation in order. -/
def runOps (s : LooperState) : List Op → LooperState × List Invocation
  | [] => (s, [])
  | op :: rest =>
    ((runOps (applyOp s op).1 rest).1,
      (applyOp s op).2 ++ (runOps (applyOp s op).1 rest).2)

/-! ## Structural invariants -/

/-- The fd-to-sequence index agrees with the request table (spec §3
invariant 1 and §8 quantified invariant 1): every index entry points at a
request for that fd, and every request is indexed under its fd. -/
def fdSeqAgree (s : LooperState) : Prop :=
  (∀ p ∈ s.mSequenceNumberByFd, Option.map Request.fd (alookup s.mRequests p.2) = some p.1) ∧
  (∀ q ∈ s.mRequests, alookup s.mSequenceNumberByFd q.2.fd = some q.1)

/-- Well-formedness of a looper state: unique keys in both tables, the
agreement invariant, and freshness of the sequence counter. -/
def WF (s : LooperState) : Prop :=
  (akeys s.mRequests).Nodup ∧
  (akeys s.mSequenceNumberByFd).Nodup ∧
  fdSeqAgree s ∧
  (∀ q ∈ s.mRequests, q.1 < s.mNextRequestSeq) ∧
  WAKE_EVENT_FD_SEQ < s.mNextRequestSeq

instance (s : LooperState) : Decidable (fdSeqAgree s) := by
  unfold fdSeqAgree; infer_instance

instance (s : LooperState) : Decidable (WF s) := by
  unfold WF; infer_instance

/-- A sequence number that is dead: absent from the request table and below
the allocation counter, so no later `addFd` can ever reuse it. -/
def DeadSeq (o : Nat) (s : LooperState) : Prop :=
  alookup s.mRequests o = none ∧ o < s.mNextRequestSeq

instance (o : Nat) (s : LooperState) : Decidable (DeadSeq o s) := by
  unfold DeadSeq; infer_instance

/-! ## Association-list lemmas -/

section AList

variable {α β : Type} [DecidableEq α]

theorem alookup_eq_none_iff (m : List (α × β)) (a : α) :
    alookup m a = none ↔ a ∉ akeys m := by
  induction m with
  | nil => simp [alookup, akeys]
  | cons p rest ih =>
    obtain ⟨k, v⟩ := p
    simp only [alookup, akeys, List.map_cons, List.mem_cons]
    by_cases h : k = a
    · subst h; simp
    · have h2 : ¬ a = k := fun hc => h hc.symm
      simp [h, h2, akeys] at ih ⊢
      exact ih

theorem alookup_mem {m : List (α × β)} {a : α} {b : β}
    (h : alookup m a = some b) : (a, b) ∈ m := by
  induction m with
  | nil => simp [alookup] at h
  | cons p rest ih =>
    obtain ⟨k, v⟩ := p
    by_cases hk : k = a
    · subst hk
      simp [alookup] at h
      subst h; exact List.mem_cons_self _ _
    · simp [alookup, hk] at h
      exact List.mem_cons_of_mem _ (ih h)

theorem mem_alookup {m : List (α × β)} {a : α} {b : β}
    (hnd : (akeys m).Nodup) (h : (a, b) ∈ m) : alookup m a = some b := by
  induction m with
  | nil => simp at h
  | cons p rest ih =>
    obtain ⟨k, v⟩ := p
    simp only [akeys, List.map_cons, List.nodup_cons] at hnd
    rcases List.mem_cons.mp h with h1 | h1
    · cases h1; simp [alookup]
    · have hka : k ≠ a := by
        intro he; subst he
        exact hnd.1 (List.mem_map.mpr ⟨(k, b), h1, rfl⟩)
      simp [alookup, hka]
      exact ih hnd.2 h1

theorem aerase_sublist (m : List (α × β)) (a : α) : List.Sublist (aerase m a) m := by
  induction m with
  | nil => simp [aerase]
  | cons p rest ih =>
    obtain ⟨k, v⟩ := p
    by_cases h : k = a
    · rw [aerase, if_pos h]
      exact List.sublist_cons_self _ _
    · simpa [aerase, h] using ih.cons₂ (k, v)

theorem mem_aerase {m : List (α × β)} {a : α} {p : α × β}
    (h : p ∈ aerase m a) : p ∈ m :=
  (aerase_sublist m a).subset h

theorem akeys_aerase_sublist (m : List (α × β)) (a : α) :
    List.Sublist (akeys (aerase m a)) (akeys m) :=
  (aerase_sublist m a).map Prod.fst

theorem nodup_akeys_aerase {m : List (α × β)} (a : α)
    (hnd : (akeys m).Nodup) : (akeys (aerase m a)).Nodup :=
  hnd.sublist (akeys_aerase_sublist m a)

theorem alookup_aerase_self {m : List (α × β)} {a : α}
    (hnd : (akeys m).Nodup) : alookup (aerase m a) a = none := by
  induction m with
  | nil => simp [aerase, alookup]
  | cons p rest ih =>
    obtain ⟨k, v⟩ := p
    simp only [akeys, List.map_cons, List.nodup_cons] at hnd
    by_cases h : k = a
    · subst h
      simp only [aerase, if_pos rfl]
      rw [alookup_eq_none_iff]
      intro hc
      exact hnd.1 hc
    · simp [aerase, alookup, h, ih hnd.2]

theorem alookup_aerase_ne {m : List (α × β)} {a x : α} (h : x ≠ a) :
    alookup (aerase m a) x = alookup m x := by
  induction m with
  | nil => simp [aerase]
  | cons p rest ih =>
    obtain ⟨k, v⟩ := p
    by_cases hk : k = a
    · subst hk
      have hkx : ¬ k = x := fun hc => h hc.symm
      simp [aerase, alookup, hkx]
    · by_cases hx : k = x
      · subst hx; simp [aerase, alookup, hk]
      · simp [aerase, alookup, hk, hx, ih]

theorem mem_aerase_key_ne {m : List (α × β)} {a : α} {p : α × β}
    (hnd : (akeys m).Nodup) (h : p ∈ aerase m a) : p.1 ≠ a := by
  intro he
  have h1 : alookup (aerase m a) p.1 = some p.2 := by
    have hnd2 : (akeys (aerase m a)).Nodup := nodup_akeys_aerase a hnd
    exact mem_alookup hnd2 (by cases p; exact h)
  rw [he, alookup_aerase_self hnd] at h1
  cases h1

theorem akeys_aset (m : List (α × β)) (a : α) (b : β) :
    akeys (aset m a b) = akeys m := by
  induction m with
  | nil => simp [aset]
  | cons p rest ih =>
    obtain ⟨k, v⟩ := p
    by_cases h : k = a
    · subst h; simp [aset, akeys]
    · simp [aset, akeys, h]
      simpa [akeys] using ih

theorem alookup_aset_self {m : List (α × β)} {a : α} {v : β} (b : β)
    (h : alookup m a = some v) : alookup (aset m a b) a = some b := by
  induction m with
  | nil => simp [alookup] at h
  | cons p rest ih =>
    obtain ⟨k, w⟩ := p
    by_cases hk : k = a
    · subst hk; simp [aset, alookup]
    · simp only [alookup, if_neg hk] at h
      simp [aset, alookup, hk, ih h]

theorem alookup_aset_ne {m : List (α × β)} {a x : α} (b : β) (h : x ≠ a) :
    alookup (aset m a b) x = alookup m x := by
  induction m with
  | nil => simp [aset]
  | cons p rest ih =>
    obtain ⟨k, v⟩ := p
    by_cases hk : k = a
    · subst hk
      have hkx : ¬ k = x := fun hc => h hc.symm
      simp [aset, alookup, hkx]
    · by_cases hx : k = x
      · subst hx; simp [aset, alookup, hk]
      · simp [aset, alookup, hk, hx, ih]

theorem mem_aset {m : List (α × β)} {a : α} {b : β} {p : α × β}
    (hnd : (akeys m).Nodup) (h : p ∈ aset m a b) :
    p = (a, b) ∨ (p ∈ m ∧ p.1 ≠ a) := by
  induction m with
  | nil => simp [aset] at h
  | cons q rest ih =>
    obtain ⟨k, v⟩ := q
    simp only [akeys, List.map_cons, List.nodup_cons] at hnd
    by_cases hk : k = a
    · subst hk
      simp only [aset, if_pos rfl, if_true, eq_self_iff_true, List.mem_cons] at h
      rcases h with h2 | h2
      · exact Or.inl h2
      · right
        refine ⟨List.mem_cons_of_mem _ h2, ?_⟩
        intro he
        exact hnd.1 (List.mem_map.mpr ⟨p, h2, he⟩)
    · simp only [aset, if_neg hk, List.mem_cons] at h
      rcases h with h2 | h2
      · subst h2; exact Or.inr ⟨List.mem_cons_self _ _, hk⟩
      · rcases ih hnd.2 h2 with h1 | h1
        · exact Or.inl h1
        · exact Or.inr ⟨List.mem_cons_of_mem _ h1.1, h1.2⟩

end AList

/-! ## Message-queue lemmas -/

/-- The queue ordering invariant (spec §3 invariant 4): uptimes are
non-decreasing along the queue. -/
def MsgSorted (q : List MessageEnvelope) : Prop :=
  List.Pairwise (fun e1 e2 => e1.uptime ≤ e2.uptime) q

instance (q : List MessageEnvelope) : Decidable (MsgSorted q) := by
  unfold MsgSorted; infer_instance

/-- The scan loop stops at the first envelope with strictly greater uptime:
everything before the insertion point is at or below the new deadline, and
the envelope at the insertion point (if any) is strictly above it. -/
theorem insertPosition_spec (u : Int) (q : List MessageEnvelope) :
    (∀ e ∈ q.take (insertPosition u q), e.uptime ≤ u) ∧
    (∀ e, (q.drop (insertPosition u q)).head? = some e → u < e.uptime) := by
  induction q with
  | nil => simp [insertPosition]
  | cons f rest ih =>
    by_cases h : f.uptime ≤ u
    · refine ⟨?_, ?_⟩
      · intro e he
        simp only [insertPosition, if_pos h, List.take_succ_cons, List.mem_cons] at he
        rcases he with he | he
        · subst he; exact h
        · exact ih.1 e he
      · intro e he
        simp only [insertPosition, if_pos h, List.drop_succ_cons] at he
        exact ih.2 e he
    · constructor
      · intro e he
        simp [insertPosition, if_neg h] at he
      · intro e he
        simp only [insertPosition, if_neg h, List.drop_zero, List.head?_cons,
          Option.some.injEq] at he
        subst he
        exact lt_of_not_ge h

/-- Inserting at the scanned position keeps the queue sorted. -/
theorem MsgSorted_insert (u : Int) (handler : Nat) (what : Int)
    (q : List MessageEnvelope) (hs : MsgSorted q) :
    MsgSorted (q.take (insertPosition u q) ++
      ({ uptime := u, handler := handler, what := what } : MessageEnvelope) ::
        q.drop (insertPosition u q)) := by
  induction q with
  | nil => simp [insertPosition, MsgSorted]
  | cons f rest ih =>
    rw [MsgSorted, List.pairwise_cons] at hs
    by_cases h : f.uptime ≤ u
    · simp only [insertPosition, if_pos h, List.take_succ_cons, List.drop_succ_cons,
        List.cons_append]
      rw [MsgSorted, List.pairwise_cons]
      refine ⟨?_, ih hs.2⟩
      intro e he
      rcases List.mem_append.mp he with he | he
      · exact hs.1 e (List.take_subset _ _ he)
      · rcases List.mem_cons.mp he with he | he
        · subst he; exact h
        · exact hs.1 e (List.drop_subset _ _ he)
    · simp only [insertPosition, if_neg h, List.take_zero, List.drop_zero,
        List.nil_append]
      rw [MsgSorted, List.pairwise_cons]
      constructor
      · intro e he
        have hu : u ≤ f.uptime := le_of_lt (lt_of_not_ge h)
        rcases List.mem_cons.mp he with he | he
        · subst he; exact hu
        · exact le_trans hu (hs.1 e he)
      · rw [List.pairwise_cons]
        exact hs

/-- Stability: in a sorted queue every envelope at or below the new deadline
lies inside the prefix kept in front of the new envelope, so earlier enqueues
with equal deadlines stay ahead of the new one. -/
theorem mem_take_insertPosition (u : Int) (q : List MessageEnvelope)
    (hs : MsgSorted q) (e : MessageEnvelope) (he : e ∈ q) (hle : e.uptime ≤ u) :
    e ∈ q.take (insertPosition u q) := by
  induction q with
  | nil => simp at he
  | cons f rest ih =>
    rw [MsgSorted, List.pairwise_cons] at hs
    by_cases h : f.uptime ≤ u
    · simp only [insertPosition, if_pos h, List.take_succ_cons, List.mem_cons]
      rcases List.mem_cons.mp he with he | he
      · exact Or.inl he
      · exact Or.inr (ih hs.2 he)
    · exfalso
      rcases List.mem_cons.mp he with he | he
      · subst he; exact h hle
      · exact h (le_trans (hs.1 e he) hle)

/-- The drain loop removes a prefix of the queue in order: the dispatched
list followed by the remaining list is the original queue. -/
theorem drainMessages_append (clock : Nat → Int) (k : Nat)
    (q : List MessageEnvelope) :
    (drainMessages clock k q).dispatched ++ (drainMessages clock k q).remaining = q := by
  induction q generalizing k with
  | nil => simp [drainMessages]
  | cons e rest ih =>
    by_cases h : e.uptime ≤ clock k
    · simp [drainMessages, h, ih]
    · simp [drainMessages, h]

/-! ## Replay-scan lemmas -/

/-- Characterisation of a successful replay scan: the hit is the first
response in the pending list with a non-negative identifier, and the new
response index is one past its position. -/
theorem scanResponses_spec (l : List Response) (i : Nat) (r : Response) (j : Nat)
    (h : scanResponses l i = some (r, j)) :
    0 ≤ r.request.ident ∧
    ∃ k, (∀ r2 ∈ l.take k, r2.request.ident < 0) ∧
      (∃ tail, l.drop k = r :: tail) ∧ j = i + k + 1 := by
  induction l generalizing i with
  | nil => simp [scanResponses] at h
  | cons r0 rest ih =>
    by_cases h0 : 0 ≤ r0.request.ident
    · simp only [scanResponses, if_pos h0, Option.some.injEq, Prod.mk.injEq] at h
      obtain ⟨h1, h2⟩ := h
      subst h1; subst h2
      exact ⟨h0, 0, by simp, ⟨rest, by simp⟩, by simp⟩
    · simp only [scanResponses, if_neg h0] at h
      obtain ⟨hident, k, htake, ⟨tail, hdrop⟩, hj⟩ := ih (i + 1) h
      refine ⟨hident, k + 1, ?_, ⟨tail, by simpa using hdrop⟩, by omega⟩
      intro r2 hr2
      simp only [List.take_succ_cons, List.mem_cons] at hr2
      rcases hr2 with hr2 | hr2
      · subst hr2; exact lt_of_not_ge h0
      · exact htake r2 hr2

/-! ## Response-translation lemmas -/

/-- Every response built from an event batch carries a sequence number that
was registered at translation time, with its stored request snapshot. -/
theorem buildResponses_mem_lookup (reqs : List (Nat × Request))
    (items : List KernelItem) :
    ∀ r ∈ buildResponses reqs items, alookup reqs r.seq = some r.request := by
  induction items with
  | nil => simp [buildResponses]
  | cons item rest ih =>
    intro r hr
    by_cases h1 : item.seq = WAKE_EVENT_FD_SEQ
    · rw [buildResponses, if_pos h1] at hr
      exact ih r hr
    · rw [buildResponses, if_neg h1] at hr
      cases hl : alookup reqs item.seq with
      | none => rw [hl] at hr; exact ih r hr
      | some request =>
        rw [hl] at hr
        rcases List.mem_cons.mp hr with hr | hr
        · subst hr; simpa using hl
        · exact ih r hr

/-- A readiness item whose sequence number is not in the request table is
discarded: it contributes no `Response`. -/
theorem buildResponses_skip (reqs : List (Nat × Request)) (sq ev : Nat)
    (items : List KernelItem) (h : alookup reqs sq = none) :
    buildResponses reqs ({ seq := sq, events := ev } :: items) =
      buildResponses reqs items := by
  by_cases h1 : sq = WAKE_EVENT_FD_SEQ
  · rw [buildResponses, if_pos h1]
  · rw [buildResponses, if_neg h1]
    simp only [h]

/-! ## Poll-result lemmas -/

/-- The result decided before message and callback dispatch is one of
`POLL_WAKE`, `POLL_ERROR`, `POLL_TIMEOUT`. -/
theorem pollInnerBase_result (s : LooperState) (w : WaitOutcome) :
    (pollInnerBase s w).2 = POLL_WAKE ∨ (pollInnerBase s w).2 = POLL_ERROR ∨
      (pollInnerBase s w).2 = POLL_TIMEOUT := by
  by_cases h : s.mEpollRebuildRequired
  · simp [pollInnerBase, h]
  · cases w with
    | intr => simp [pollInnerBase, h]
    | failed => simp [pollInnerBase, h]
    | ready items =>
      by_cases h2 : items = []
      · simp [pollInnerBase, h, h2]
      · simp [pollInnerBase, h, h2]

/-- `pollInner` never returns `0`, which justifies unrolling the `for (;;)`
of `pollOnce` to a single inner poll. -/
theorem pollInner_result_ne_zero (s : LooperState) (t : Int) (inp : PollInput) :
    (pollInner s t inp).result ≠ 0 := by
  have h := pollInnerBase_result (innerStart s) inp.wait
  simp only [pollInner, innerAfterWait] at h ⊢
  split
  · split
    · rcases h with h | h | h <;> simp [h, POLL_WAKE, POLL_ERROR, POLL_TIMEOUT]
    · simp [POLL_CALLBACK]
  · simp [POLL_CALLBACK]

/-! ## Small facts about the sequence allocator and the rebuild flag -/

@[simp] theorem allocSeq_mRequests (s : LooperState) :
    (allocSeq s).1.mRequests = s.mRequests := by
  unfold allocSeq; split <;> rfl

@[simp] theorem allocSeq_mSequenceNumberByFd (s : LooperState) :
    (allocSeq s).1.mSequenceNumberByFd = s.mSequenceNumberByFd := by
  unfold allocSeq; split <;> rfl

theorem allocSeq_mNextRequestSeq (s : LooperState) :
    (allocSeq s).1.mNextRequestSeq = (allocSeq s).2 + 1 := by
  unfold allocSeq; split <;> rfl

theorem le_allocSeq_seq (s : LooperState) : s.mNextRequestSeq ≤ (allocSeq s).2 := by
  unfold allocSeq; split <;> simp

@[simp] theorem scheduleEpollRebuildLocked_mRequests (s : LooperState) :
    (scheduleEpollRebuildLocked s).mRequests = s.mRequests := by
  unfold scheduleEpollRebuildLocked; split <;> rfl

@[simp] theorem scheduleEpollRebuildLocked_mSequenceNumberByFd (s : LooperState) :
    (scheduleEpollRebuildLocked s).mSequenceNumberByFd = s.mSequenceNumberByFd := by
  unfold scheduleEpollRebuildLocked; split <;> rfl

@[simp] theorem scheduleEpollRebuildLocked_mNextRequestSeq (s : LooperState) :
    (scheduleEpollRebuildLocked s).mNextRequestSeq = s.mNextRequestSeq := by
  unfold scheduleEpollRebuildLocked; split <;> rfl

theorem scheduleEpollRebuildLocked_flag (s : LooperState) :
    (scheduleEpollRebuildLocked s).mEpollRebuildRequired = true := by
  unfold scheduleEpollRebuildLocked; split
  · assumption
  · rfl

/-! ## Well-formedness preservation -/

theorem WF_scheduleEpollRebuildLocked (s : LooperState) (h : WF s) :
    WF (scheduleEpollRebuildLocked s) := by
  unfold scheduleEpollRebuildLocked; split
  · exact h
  · exact h

theorem not_mem_akeys_of_fresh {m : List (Nat × Request)} {seq : Nat}
    (hfresh : ∀ q ∈ m, q.1 < seq) : seq ∉ akeys m := by
  intro hc
  obtain ⟨q, hq, hq2⟩ := List.mem_map.mp hc
  exact absurd (hq2 ▸ hfresh q hq) (lt_irrefl seq)

/-- Freshly inserting a request and its index entry preserves the invariant. -/
theorem WF_insertCore (s : LooperState) (seq : Nat) (request : Request)
    (h : WF s) (hfresh : ∀ q ∈ s.mRequests, q.1 < seq)
    (hcnt : seq < s.mNextRequestSeq)
    (habs : alookup s.mSequenceNumberByFd request.fd = none) :
    WF { s with mRequests := (seq, request) :: s.mRequests
                mSequenceNumberByFd := (request.fd, seq) :: s.mSequenceNumberByFd } := by
  obtain ⟨hnd1, hnd2, ⟨hfwd, hbwd⟩, hbound, hwake⟩ := h
  refine ⟨?_, ?_, ⟨?_, ?_⟩, ?_, hwake⟩
  · rw [show akeys ((seq, request) :: s.mRequests) = seq :: akeys s.mRequests from rfl,
      List.nodup_cons]
    exact ⟨not_mem_akeys_of_fresh hfresh, hnd1⟩
  · rw [show akeys ((request.fd, seq) :: s.mSequenceNumberByFd)
        = request.fd :: akeys s.mSequenceNumberByFd from rfl, List.nodup_cons]
    rw [alookup_eq_none_iff] at habs
    exact ⟨habs, hnd2⟩
  · intro p hp
    rcases List.mem_cons.mp hp with hp | hp
    · subst hp
      simp [alookup]
    · have hpair := hfwd p hp
      have hne : p.2 ≠ seq := by
        intro he
        cases hl2 : alookup s.mRequests p.2 with
        | none => rw [hl2] at hpair; cases hpair
        | some req2 =>
          have hmem := alookup_mem hl2
          have := hfresh (p.2, req2) hmem
          omega
      simpa [alookup, hne.symm] using hpair
  · intro q hq
    rcases List.mem_cons.mp hq with hq | hq
    · subst hq
      simp [alookup]
    · have hlq := hbwd q hq
      have hne : q.2.fd ≠ request.fd := by
        intro he
        rw [he, habs] at hlq
        cases hlq
      have hne2 : ¬ request.fd = q.2.fd := fun hc => hne hc.symm
      simpa [alookup, hne2] using hlq
  · intro q hq
    rcases List.mem_cons.mp hq with hq | hq
    · subst hq; exact hcnt
    · exact hbound q hq

/-- Replacing the registration of an already-registered fd preserves the
invariant. -/
theorem WF_replaceCore (s : LooperState) (seq oldSeq : Nat) (request : Request)
    (h : WF s) (hfresh : ∀ q ∈ s.mRequests, q.1 < seq)
    (hcnt : seq < s.mNextRequestSeq)
    (hold : alookup s.mSequenceNumberByFd request.fd = some oldSeq) :
    WF { s with mRequests := (seq, request) :: aerase s.mRequests oldSeq
                mSequenceNumberByFd := aset s.mSequenceNumberByFd request.fd seq } := by
  obtain ⟨hnd1, hnd2, ⟨hfwd, hbwd⟩, hbound, hwake⟩ := h
  have hfwd_old := hfwd (request.fd, oldSeq) (alookup_mem hold)
  refine ⟨?_, ?_, ⟨?_, ?_⟩, ?_, hwake⟩
  · refine List.Nodup.cons ?_ (nodup_akeys_aerase _ hnd1)
    intro hc
    have hsub := (akeys_aerase_sublist s.mRequests oldSeq).subset hc
    exact not_mem_akeys_of_fresh hfresh hsub
  · rw [akeys_aset]; exact hnd2
  · intro p hp
    rcases mem_aset hnd2 hp with hp | ⟨hp, hpne⟩
    · subst hp
      simp [alookup]
    · have hpair := hfwd p hp
      have hne2 : p.2 ≠ oldSeq := by
        intro he
        rw [he] at hpair
        rw [hpair] at hfwd_old
        exact hpne (Option.some.inj hfwd_old)
      have hne1 : p.2 ≠ seq := by
        intro he
        cases hl2 : alookup s.mRequests p.2 with
        | none => rw [hl2] at hpair; cases hpair
        | some req2 =>
          have := hfresh (p.2, req2) (alookup_mem hl2)
          omega
      rw [show alookup ((seq, request) :: aerase s.mRequests oldSeq) p.2
            = alookup s.mRequests p.2 from ?_]
      · exact hpair
      · simp only [alookup, if_neg (fun hc : seq = p.2 => hne1 hc.symm)]
        exact alookup_aerase_ne hne2
  · intro q hq
    rcases List.mem_cons.mp hq with hq | hq
    · subst hq
      simp only
      exact alookup_aset_self seq hold
    · have hqmem : q ∈ s.mRequests := mem_aerase hq
      have hqne : q.1 ≠ oldSeq := mem_aerase_key_ne hnd1 hq
      have hlq := hbwd q hqmem
      have hfdne : q.2.fd ≠ request.fd := by
        intro he
        rw [he, hold] at hlq
        exact hqne (Option.some.inj hlq).symm
      rw [alookup_aset_ne seq hfdne]
      exact hlq
  · intro q hq
    rcases List.mem_cons.mp hq with hq | hq
    · subst hq; exact hcnt
    · exact hbound q (mem_aerase hq)

/-- Erasing both table entries of a registered sequence number preserves the
invariant. -/
theorem WF_eraseCore (s : LooperState) (sq : Nat) (request : Request)
    (h : WF s) (hl : alookup s.mRequests sq = some request) :
    WF { s with mRequests := aerase s.mRequests sq
                mSequenceNumberByFd := aerase s.mSequenceNumberByFd request.fd } := by
  obtain ⟨hnd1, hnd2, ⟨hfwd, hbwd⟩, hbound, hwake⟩ := h
  refine ⟨nodup_akeys_aerase _ hnd1, nodup_akeys_aerase _ hnd2, ⟨?_, ?_⟩, ?_, hwake⟩
  · intro p hp
    have hpm : p ∈ s.mSequenceNumberByFd := mem_aerase hp
    have hpair := hfwd p hpm
    have hpne : p.1 ≠ request.fd := mem_aerase_key_ne hnd2 hp
    have hp2 : p.2 ≠ sq := by
      intro he
      rw [he, hl] at hpair
      simp only [Option.map_some'] at hpair
      exact hpne (Option.some.inj hpair).symm
    rw [alookup_aerase_ne hp2]
    exact hpair
  · intro q hq
    have hqm : q ∈ s.mRequests := mem_aerase hq
    have hqn : q.1 ≠ sq := mem_aerase_key_ne hnd1 hq
    have hlq := hbwd q hqm
    have hfdne : q.2.fd ≠ request.fd := by
      intro he
      rw [he] at hlq
      have hlq2 := hbwd (sq, request) (alookup_mem hl)
      rw [hlq] at hlq2
      exact hqn (Option.some.inj hlq2)
    rw [alookup_aerase_ne hfdne]
    exact hlq
  · intro q hq
    exact hbound q (mem_aerase hq)

theorem WF_removeSequenceNumberLocked (s : LooperState) (sq : Nat) (k : DelResult)
    (h : WF s) : WF (removeSequenceNumberLocked s sq k).1 := by
  unfold removeSequenceNumberLocked
  cases hl : alookup s.mRequests sq with
  | none => exact h
  | some request =>
    have hcore := WF_eraseCore s sq request h hl
    cases k with
    | ok => exact hcore
    | badfdOrNoent => exact WF_scheduleEpollRebuildLocked _ hcore
    | otherFailure => exact WF_scheduleEpollRebuildLocked _ hcore

theorem WF_removeFd (s : LooperState) (fd : Int) (k : DelResult) (h : WF s) :
    WF (removeFd s fd k).1 := by
  unfold removeFd
  cases alookup s.mSequenceNumberByFd fd with
  | none => exact h
  | some sq => exact WF_removeSequenceNumberLocked s sq k h

theorem WF_allocSeq (s : LooperState) (h : WF s) : WF (allocSeq s).1 := by
  obtain ⟨hnd1, hnd2, hagree, hbound, hwake⟩ := h
  have hle : s.mNextRequestSeq ≤ (allocSeq s).2 := le_allocSeq_seq s
  have hcnt := allocSeq_mNextRequestSeq s
  refine ⟨?_, ?_, ?_, ?_, ?_⟩
  · rw [allocSeq_mRequests]; exact hnd1
  · rw [allocSeq_mSequenceNumberByFd]; exact hnd2
  · constructor
    · intro p hp
      rw [allocSeq_mSequenceNumberByFd] at hp
      rw [allocSeq_mRequests]
      exact hagree.1 p hp
    · intro q hq
      rw [allocSeq_mRequests] at hq
      rw [allocSeq_mSequenceNumberByFd]
      exact hagree.2 q hq
  · intro q hq
    rw [allocSeq_mRequests] at hq
    have := hbound q hq
    omega
  · omega

theorem WF_addFd (s : LooperState) (fd ident : Int) (events : Nat)
    (callback : Option Nat) (data : Nat) (k : AddFdKernel) (h : WF s) :
    WF (addFd s fd ident events callback data k).1 := by
  have hWFa := WF_allocSeq s h
  have hfresh : ∀ q ∈ (allocSeq s).1.mRequests, q.1 < (allocSeq s).2 := by
    intro q hq
    rw [allocSeq_mRequests] at hq
    have h1 := h.2.2.2.1 q hq
    have h2 := le_allocSeq_seq s
    omega
  have hcnt : (allocSeq s).2 < (allocSeq s).1.mNextRequestSeq := by
    rw [allocSeq_mNextRequestSeq]; omega
  unfold addFd
  split
  · exact h
  split
  · exact h
  split
  case _ heq =>
    unfold addFdNoEpoch
    cases k.addResult with
    | ok => exact WF_insertCore _ _ _ hWFa hfresh hcnt heq
    | enoent => exact hWFa
    | otherFailure => exact hWFa
  case _ oldSeq heq =>
    unfold addFdReplace
    cases k.modResult with
    | ok => exact WF_replaceCore _ _ _ _ hWFa hfresh hcnt heq
    | enoent =>
      cases k.fallbackAddResult with
      | ok =>
        exact WF_scheduleEpollRebuildLocked _
          (WF_replaceCore _ _ _ _ hWFa hfresh hcnt heq)
      | enoent => exact hWFa
      | otherFailure => exact hWFa
    | otherFailure => exact hWFa

theorem WF_runCallbacks (cb : Nat → Int) (dk : Nat → DelResult)
    (resps : List Response) :
    ∀ (i : Nat) (s : LooperState), WF s → WF (runCallbacks cb dk i resps s).1 := by
  induction resps with
  | nil => intro i s h; exact h
  | cons r rest ih =>
    intro i s h
    unfold runCallbacks
    split
    · by_cases hr : cb i = 0
      · simp only [if_pos hr]
        exact ih _ _ (WF_removeSequenceNumberLocked _ _ _ h)
      · simp only [if_neg hr]
        exact ih _ _ h
    · exact ih _ _ h

theorem WF_pollInnerBase (s : LooperState) (w : WaitOutcome) (h : WF s) :
    WF (pollInnerBase s w).1 := by
  unfold pollInnerBase
  split
  · exact h
  · cases w with
    | intr => exact h
    | failed => exact h
    | ready items =>
      by_cases h2 : items = []
      · simp only [if_pos h2]; exact h
      · simp only [if_neg h2]; exact h

theorem WF_pollInner (s : LooperState) (t : Int) (inp : PollInput) (h : WF s) :
    WF (pollInner s t inp).state :=
  WF_runCallbacks _ _ _ 0 _ (WF_pollInnerBase (innerStart s) inp.wait h)

theorem WF_pollOnceInnerStep (s : LooperState) (t : Int) (inp : PollInput) (h : WF s) :
    WF (pollOnceInnerStep s t inp).state := by
  unfold pollOnceInnerStep
  split
  · exact WF_pollInner _ _ _ h
  · exact WF_pollInner _ _ _ h

theorem WF_pollOnce (s : LooperState) (t : Int) (inp : PollInput) (h : WF s) :
    WF (pollOnce s t inp).state := by
  unfold pollOnce
  split
  · exact h
  · exact WF_pollOnceInnerStep _ _ _ h

theorem WF_sendMessageAtTime (s : LooperState) (uptime : Int) (handler : Nat)
    (what : Int) (h : WF s) : WF (sendMessageAtTime s uptime handler what).1 := by
  unfold sendMessageAtTime
  split
  · exact h
  · exact h

theorem WF_applyOp (s : LooperState) (op : Op) (h : WF s) : WF (applyOp s op).1 := by
  cases op with
  | addFd fd ident events callback data k => exact WF_addFd s fd ident events callback data k h
  | removeFd fd k => exact WF_removeFd s fd k h
  | sendMessageAtTime uptime handler what => exact WF_sendMessageAtTime s uptime handler what h
  | removeMessagesByHandler handler => exact h
  | removeMessagesByHandlerWhat handler what => exact h
  | pollOnce t inp => exact WF_pollOnce s t inp h

/-! ## Dead sequence numbers stay dead

Once a sequence number is absent from the request table and below the
allocation counter, no modelled operation can bring it back, and no callback
invocation can ever carry it again. -/

theorem alookup_aerase_none {α β : Type} [DecidableEq α] {m : List (α × β)}
    {o : α} (k : α) (h : alookup m o = none) : alookup (aerase m k) o = none := by
  rw [alookup_eq_none_iff] at h ⊢
  intro hc
  exact h ((akeys_aerase_sublist m k).subset hc)

theorem DeadSeq_scheduleEpollRebuildLocked (o : Nat) (s : LooperState)
    (h : DeadSeq o s) : DeadSeq o (scheduleEpollRebuildLocked s) := by
  unfold scheduleEpollRebuildLocked; split
  · exact h
  · exact h

theorem DeadSeq_removeSequenceNumberLocked (o : Nat) (s : LooperState) (sq : Nat)
    (k : DelResult) (h : DeadSeq o s) :
    DeadSeq o (removeSequenceNumberLocked s sq k).1 := by
  unfold removeSequenceNumberLocked
  cases hl : alookup s.mRequests sq with
  | none => exact h
  | some request =>
    have hcore : DeadSeq o
        { s with mRequests := aerase s.mRequests sq
                 mSequenceNumberByFd := aerase s.mSequenceNumberByFd request.fd } :=
      ⟨alookup_aerase_none sq h.1, h.2⟩
    cases k with
    | ok => exact hcore
    | badfdOrNoent => exact DeadSeq_scheduleEpollRebuildLocked _ _ hcore
    | otherFailure => exact DeadSeq_scheduleEpollRebuildLocked _ _ hcore

theorem DeadSeq_removeFd (o : Nat) (s : LooperState) (fd : Int) (k : DelResult)
    (h : DeadSeq o s) : DeadSeq o (removeFd s fd k).1 := by
  unfold removeFd
  cases alookup s.mSequenceNumberByFd fd with
  | none => exact h
  | some sq => exact DeadSeq_removeSequenceNumberLocked o s sq k h

theorem DeadSeq_allocSeq (o : Nat) (s : LooperState) (h : DeadSeq o s) :
    DeadSeq o (allocSeq s).1 := by
  refine ⟨?_, ?_⟩
  · rw [allocSeq_mRequests]; exact h.1
  · have h1 := le_allocSeq_seq s
    have h2 := allocSeq_mNextRequestSeq s
    have h3 := h.2
    omega

theorem DeadSeq_allocSeq_ne (o : Nat) (s : LooperState) (h : DeadSeq o s) :
    (allocSeq s).2 ≠ o := by
  have h1 := le_allocSeq_seq s
  have h3 := h.2
  omega

theorem DeadSeq_addFd (o : Nat) (s : LooperState) (fd ident : Int) (events : Nat)
    (callback : Option Nat) (data : Nat) (k : AddFdKernel) (h : DeadSeq o s) :
    DeadSeq o (addFd s fd ident events callback data k).1 := by
  have halloc := DeadSeq_allocSeq o s h
  have hne := DeadSeq_allocSeq_ne o s h
  unfold addFd
  split
  · exact h
  split
  · exact h
  split
  case _ heq =>
    unfold addFdNoEpoch
    cases k.addResult with
    | ok =>
      refine ⟨?_, halloc.2⟩
      simp only [alookup, if_neg hne]
      rw [allocSeq_mRequests]
      exact h.1
    | enoent => exact halloc
    | otherFailure => exact halloc
  case _ oldSeq heq =>
    have hcore : DeadSeq o { (allocSeq s).1 with
        mRequests := ((allocSeq s).2, mkRequest fd ident events callback data)
          :: aerase (allocSeq s).1.mRequests oldSeq
        mSequenceNumberByFd := aset (allocSeq s).1.mSequenceNumberByFd
          (mkRequest fd ident events callback data).fd (allocSeq s).2 } := by
      refine ⟨?_, halloc.2⟩
      simp only [alookup, if_neg hne]
      rw [allocSeq_mRequests]
      exact alookup_aerase_none oldSeq h.1
    unfold addFdReplace
    cases k.modResult with
    | ok => exact hcore
    | enoent =>
      cases k.fallbackAddResult with
      | ok => exact DeadSeq_scheduleEpollRebuildLocked _ _ hcore
      | enoent => exact halloc
      | otherFailure => exact halloc
    | otherFailure => exact halloc

theorem DeadSeq_runCallbacks (o : Nat) (cb : Nat → Int) (dk : Nat → DelResult)
    (resps : List Response) :
    ∀ (i : Nat) (s : LooperState), DeadSeq o s →
      DeadSeq o (runCallbacks cb dk i resps s).1 := by
  induction resps with
  | nil => intro i s h; exact h
  | cons r rest ih =>
    intro i s h
    unfold runCallbacks
    split
    · by_cases hr : cb i = 0
      · simp only [if_pos hr]
        exact ih _ _ (DeadSeq_removeSequenceNumberLocked _ _ _ _ h)
      · simp only [if_neg hr]
        exact ih _ _ h
    · exact ih _ _ h

theorem DeadSeq_pollInnerBase (o : Nat) (s : LooperState) (w : WaitOutcome)
    (h : DeadSeq o s) : DeadSeq o (pollInnerBase s w).1 := by
  unfold pollInnerBase
  split
  · exact h
  · cases w with
    | intr => exact h
    | failed => exact h
    | ready items =>
      by_cases h2 : items = []
      · simp only [if_pos h2]; exact h
      · simp only [if_neg h2]; exact h

theorem DeadSeq_pollInner (o : Nat) (s : LooperState) (t : Int) (inp : PollInput)
    (h : DeadSeq o s) : DeadSeq o (pollInner s t inp).state :=
  DeadSeq_runCallbacks o _ _ _ 0 _ (DeadSeq_pollInnerBase o (innerStart s) inp.wait h)

theorem DeadSeq_pollOnceInnerStep (o : Nat) (s : LooperState) (t : Int)
    (inp : PollInput) (h : DeadSeq o s) :
    DeadSeq o (pollOnceInnerStep s t inp).state := by
  unfold pollOnceInnerStep
  split
  · exact DeadSeq_pollInner o _ _ _ h
  · exact DeadSeq_pollInner o _ _ _ h

theorem DeadSeq_pollOnce (o : Nat) (s : LooperState) (t : Int) (inp : PollInput)
    (h : DeadSeq o s) : DeadSeq o (pollOnce s t inp).state := by
  unfold pollOnce
  split
  · exact h
  · exact DeadSeq_pollOnceInnerStep o _ _ _ h

theorem DeadSeq_sendMessageAtTime (o : Nat) (s : LooperState) (uptime : Int)
    (handler : Nat) (what : Int) (h : DeadSeq o s) :
    DeadSeq o (sendMessageAtTime s uptime handler what).1 := by
  unfold sendMessageAtTime
  split
  · exact h
  · exact h

theorem DeadSeq_applyOp (o : Nat) (s : LooperState) (op : Op) (h : DeadSeq o s) :
    DeadSeq o (applyOp s op).1 := by
  cases op with
  | addFd fd ident events callback data k => exact DeadSeq_addFd o s fd ident events callback data k h
  | removeFd fd k => exact DeadSeq_removeFd o s fd k h
  | sendMessageAtTime uptime handler what => exact DeadSeq_sendMessageAtTime o s uptime handler what h
  | removeMessagesByHandler handler => exact h
  | removeMessagesByHandlerWhat handler what => exact h
  | pollOnce t inp => exact DeadSeq_pollOnce o s t inp h

/-! ## Which sequence numbers callbacks can carry -/

theorem runCallbacks_invoked_mem (cb : Nat → Int) (dk : Nat → DelResult)
    (resps : List Response) :
    ∀ (i : Nat) (s : LooperState) (inv : Invocation),
      inv ∈ (runCallbacks cb dk i resps s).2 → ∃ r ∈ resps, inv.seq = r.seq := by
  induction resps with
  | nil => intro i s inv hinv; simp [runCallbacks] at hinv
  | cons r rest ih =>
    intro i s inv hinv
    unfold runCallbacks at hinv
    split at hinv
    · rcases List.mem_cons.mp hinv with hinv | hinv
      · subst hinv
        exact ⟨r, List.mem_cons_self _ _, rfl⟩
      · obtain ⟨r2, hr2, hseq⟩ := ih _ _ _ hinv
        exact ⟨r2, List.mem_cons_of_mem _ hr2, hseq⟩
    · obtain ⟨r2, hr2, hseq⟩ := ih _ _ _ hinv
      exact ⟨r2, List.mem_cons_of_mem _ hr2, hseq⟩

/-- Every response visible to the callback loop of `pollInner` was looked up
in the request table of the state the poll started from. -/
theorem pollInnerBase_responses_lookup (s : LooperState) (w : WaitOutcome)
    (hresp : s.mResponses = []) :
    ∀ r ∈ (pollInnerBase s w).1.mResponses,
      alookup s.mRequests r.seq = some r.request := by
  unfold pollInnerBase
  split
  · intro r hr
    simp only [hresp] at hr
    cases hr
  · cases w with
    | intr =>
      intro r hr
      rw [hresp] at hr
      cases hr
    | failed =>
      intro r hr
      rw [hresp] at hr
      cases hr
    | ready items =>
      by_cases h2 : items = []
      · simp only [if_pos h2]
        intro r hr
        rw [hresp] at hr
        cases hr
      · simp only [if_neg h2]
        intro r hr
        exact buildResponses_mem_lookup _ _ r hr

/-- Every callback invocation of a `pollInner` call carries a sequence number
registered in the request table when the poll began. -/
theorem pollInner_invoked_lookup (s : LooperState) (t : Int) (inp : PollInput)
    (inv : Invocation) (h : inv ∈ (pollInner s t inp).invoked) :
    ∃ req, alookup s.mRequests inv.seq = some req := by
  obtain ⟨r, hr, hseq⟩ := runCallbacks_invoked_mem _ _ _ 0 _ inv h
  have hl := pollInnerBase_responses_lookup (innerStart s) inp.wait rfl r hr
  rw [hseq]
  exact ⟨r.request, hl⟩

theorem pollOnce_invoked_lookup (s : LooperState) (t : Int) (inp : PollInput)
    (inv : Invocation) (h : inv ∈ (pollOnce s t inp).invoked) :
    ∃ req, alookup s.mRequests inv.seq = some req := by
  unfold pollOnce at h
  split at h
  · cases h
  · unfold pollOnceInnerStep at h
    split at h
    · dsimp only at h
      exact pollInner_invoked_lookup _ _ _ _ h
    · dsimp only at h
      exact pollInner_invoked_lookup _ _ _ _ h

theorem applyOp_invoked_ne (o : Nat) (s : LooperState) (op : Op)
    (hd : DeadSeq o s) : ∀ inv ∈ (applyOp s op).2, inv.seq ≠ o := by
  cases op with
  | pollOnce t inp =>
    intro inv hinv he
    obtain ⟨req, hl⟩ := pollOnce_invoked_lookup s t inp inv hinv
    rw [he, hd.1] at hl
    cases hl
  | addFd fd ident events callback data k => intro inv hinv; cases hinv
  | removeFd fd k => intro inv hinv; cases hinv
  | sendMessageAtTime uptime handler what => intro inv hinv; cases hinv
  | removeMessagesByHandler handler => intro inv hinv; cases hinv
  | removeMessagesByHandlerWhat handler what => intro inv hinv; cases hinv

/-- Along any operation trace from a state where `o` is dead, no callback
invocation ever carries sequence number `o`. -/
theorem runOps_invoked_ne (o : Nat) :
    ∀ (ops : List Op) (s : LooperState), DeadSeq o s →
      ∀ inv ∈ (runOps s ops).2, inv.seq ≠ o := by
  intro ops
  induction ops with
  | nil => intro s hd inv hinv; cases hinv
  | cons op rest ih =>
    intro s hd inv hinv
    unfold runOps at hinv
    rcases List.mem_append.mp hinv with h | h
    · exact applyOp_invoked_ne o s op hd inv h
    · exact ih _ (DeadSeq_applyOp o s op hd) inv h

/-- A second `addFd` on an fd that already has a registration, when it
succeeds, leaves the old sequence number dead. -/
theorem addFd_replace_dead (s : LooperState) (fd ident : Int) (events : Nat)
    (callback : Option Nat) (data : Nat) (k : AddFdKernel) (oldSeq : Nat)
    (hWF : WF s) (hold : alookup s.mSequenceNumberByFd fd = some oldSeq)
    (hret : (addFd s fd ident events callback data k).2 = 1) :
    DeadSeq oldSeq (addFd s fd ident events callback data k).1 := by
  have holdmem : oldSeq < s.mNextRequestSeq := by
    have hfwd := hWF.2.2.1.1 (fd, oldSeq) (alookup_mem hold)
    cases hl2 : alookup s.mRequests oldSeq with
    | none => rw [hl2] at hfwd; cases hfwd
    | some req2 => exact hWF.2.2.2.1 (oldSeq, req2) (alookup_mem hl2)
  have hseqgt : oldSeq < (allocSeq s).2 := lt_of_lt_of_le holdmem (le_allocSeq_seq s)
  have hnd1 : (akeys s.mRequests).Nodup := hWF.1
  unfold addFd at hret ⊢
  by_cases hc1 : callback.isNone = true ∧ s.mAllowNonCallbacks = false
  · rw [if_pos hc1] at hret
    simp at hret
  rw [if_neg hc1] at hret ⊢
  by_cases hc2 : callback.isNone = true ∧ ident < 0
  · rw [if_pos hc2] at hret
    simp at hret
  rw [if_neg hc2] at hret ⊢
  simp only [allocSeq_mSequenceNumberByFd, hold] at hret ⊢
  have hcore : DeadSeq oldSeq { (allocSeq s).1 with
      mRequests := ((allocSeq s).2, mkRequest fd ident events callback data)
        :: aerase (allocSeq s).1.mRequests oldSeq
      mSequenceNumberByFd := aset (allocSeq s).1.mSequenceNumberByFd
        (mkRequest fd ident events callback data).fd (allocSeq s).2 } := by
    constructor
    · have hne : (allocSeq s).2 ≠ oldSeq := by omega
      simp only [alookup, if_neg hne]
      rw [allocSeq_mRequests]
      exact alookup_aerase_self hnd1
    · rw [allocSeq_mNextRequestSeq]
      omega
  unfold addFdReplace at hret ⊢
  obtain ⟨ka, km, kf⟩ := k
  cases km with
  | ok => exact hcore
  | enoent =>
    cases kf with
    | ok => exact DeadSeq_scheduleEpollRebuildLocked _ _ hcore
    | enoent => simp at hret
    | otherFailure => simp at hret
  | otherFailure => simp at hret

/-! ## Timeout lemmas -/

theorem toMillisecondTimeoutDelay_nonneg (a b : Int) :
    0 ≤ toMillisecondTimeoutDelay a b := by
  unfold toMillisecondTimeoutDelay
  split
  · exact le_refl 0
  · apply Int.ediv_nonneg <;> omega

/-! ## `pollAll` lemmas -/

theorem pollAllLoopZero_ne_callback (rs : List Int) (r : Int)
    (h : pollAllLoopZero rs = some r) : r ≠ POLL_CALLBACK := by
  induction rs with
  | nil => cases h
  | cons r0 rest ih =>
    unfold pollAllLoopZero at h
    split at h
    · exact ih h
    · cases h
      assumption

theorem pollAllLoopZero_head (rs : List Int) :
    pollAllLoopZero rs = (rs.dropWhile (fun x => decide (x = POLL_CALLBACK))).head? := by
  induction rs with
  | nil => simp [pollAllLoopZero]
  | cons r0 rest ih =>
    by_cases h : r0 = POLL_CALLBACK
    · simp [pollAllLoopZero, h, List.dropWhile_cons, ih]
    · simp [pollAllLoopZero, h, List.dropWhile_cons]

theorem pollAllLoopPos_ne_callback (e : Int) :
    ∀ (rs cs : List Int) (r : Int), pollAllLoopPos e rs cs = some r →
      r ≠ POLL_CALLBACK := by
  intro rs
  induction rs with
  | nil => intro cs r h; cases h
  | cons r0 rest ih =>
    intro cs r h
    cases cs with
    | nil => cases h
    | cons n0 ns =>
      unfold pollAllLoopPos at h
      split at h
      · cases h; assumption
      · split at h
        · cases h; decide
        · exact ih ns r h

/-! ## `pollInner` accessor equations -/

theorem pollInner_result_eq (s : LooperState) (t : Int) (inp : PollInput) :
    (pollInner s t inp).result =
      if (pollInner s t inp).invoked = [] then
        (if (pollInner s t inp).dispatched = [] then (innerAfterWait s inp.wait).2
         else POLL_CALLBACK)
      else POLL_CALLBACK := rfl

theorem pollInner_dispatched_eq (s : LooperState) (t : Int) (inp : PollInput) :
    (pollInner s t inp).dispatched = (innerDrain s inp).dispatched := rfl

theorem pollInner_waitTimeout_eq (s : LooperState) (t : Int) (inp : PollInput) :
    (pollInner s t inp).waitTimeout
      = adjustTimeout t s.mNextMessageUptime inp.now0 := rfl

theorem pollInner_invoked_nil (s : LooperState) (t : Int) (inp : PollInput)
    (h : (innerAfterWait s inp.wait).1.mResponses = []) :
    (pollInner s t inp).invoked = [] := by
  have heq : (pollInner s t inp).invoked
      = (runCallbacks inp.cbRet inp.delKernel 0
          (innerAfterWait s inp.wait).1.mResponses (innerPostMsg s inp)).2 := rfl
  rw [heq, h]
  rfl

theorem innerAfterWait_rebuild (s : LooperState) (w : WaitOutcome)
    (h : s.mEpollRebuildRequired = true) :
    innerAfterWait s w
      = ({ innerStart s with mEpollRebuildRequired := false }, POLL_WAKE) := by
  unfold innerAfterWait pollInnerBase
  rw [if_pos]
  exact h

theorem innerAfterWait_intr (s : LooperState)
    (h : s.mEpollRebuildRequired = false) :
    innerAfterWait s WaitOutcome.intr = (innerStart s, POLL_WAKE) := by
  unfold innerAfterWait pollInnerBase
  rw [if_neg]
  simp [innerStart, h]

theorem innerAfterWait_failed (s : LooperState)
    (h : s.mEpollRebuildRequired = false) :
    innerAfterWait s WaitOutcome.failed = (innerStart s, POLL_ERROR) := by
  unfold innerAfterWait pollInnerBase
  rw [if_neg]
  simp [innerStart, h]

theorem innerAfterWait_timeout (s : LooperState)
    (h : s.mEpollRebuildRequired = false) :
    innerAfterWait s (WaitOutcome.ready []) = (innerStart s, POLL_TIMEOUT) := by
  unfold innerAfterWait pollInnerBase
  rw [if_neg]
  · simp
  · simp [innerStart, h]

/-! ## Concrete sample data used by the witness theorems -/

/-- An `addFd` kernel outcome in which every `epoll_ctl` call succeeds. -/
def kernelOk : AddFdKernel :=
  { addResult := CtlResult.ok, modResult := CtlResult.ok
    fallbackAddResult := CtlResult.ok }

/-- A looper with fd `5` registered under sequence number `2`, ident `7`. -/
def sampleLooper : LooperState :=
  (addFd (initialLooper true) 5 7 EVENT_INPUT none 11 kernelOk).1

/-- A poll input whose kernel wait delivers one readiness item for sequence
number `2`. -/
def sampleInput : PollInput :=
  { now0 := 0, wait := WaitOutcome.ready [{ seq := 2, events := EPOLLIN }]
    clock := fun _ => 0, cbRet := fun _ => 1, delKernel := fun _ => DelResult.ok }

/-- A poll input whose kernel wait fails with `EINTR`. -/
def sampleIntrInput : PollInput :=
  { now0 := 0, wait := WaitOutcome.intr
    clock := fun _ => 0, cbRet := fun _ => 1, delKernel := fun _ => DelResult.ok }

/-- The request snapshot carried by `samplePendingResponse`. -/
def samplePendingRequest : Request :=
  { fd := 5, ident := 7, events := 1, callback := none, data := 11 }

/-- A pending identifier response from an earlier inner poll. -/
def samplePendingResponse : Response :=
  { seq := 2, events := 1, request := samplePendingRequest }

/-- A looper holding one pending identifier response from an earlier inner
poll. -/
def samplePending : LooperState :=
  { initialLooper true with mResponses := [samplePendingResponse] }

/-- A looper with a two-element sorted message queue. -/
def sampleQueueLooper : LooperState :=
  { initialLooper true with mMessageEnvelopes :=
      [{ uptime := 50, handler := 1, what := 1 },
       { uptime := 100, handler := 1, what := 2 }] }

/-- A looper whose message queue holds one envelope due at uptime `50`. -/
def sampleHeadLooper : LooperState :=
  { initialLooper true with
      mMessageEnvelopes := [{ uptime := 50, handler := 2, what := 3 }] }

/-! ## Claim theorems -/

/-- C1: For every sequence of `pollOnce` calls: responses with non-negative
ident produced by an inner poll are returned one per `pollOnce` call, in the
order the kernel returned them — each call consumes exactly the first pending
response with non-negative ident (everything skipped before it is a callback
response), delivering the stored `(fd, events, data)` through the out
parameters — and a result code is only ever returned at a point where no
identifier response is pending: with no pending identifier response the call
runs the inner poll, returns the first identifier of the fresh batch if one
exists, and only otherwise returns the inner poll's result code with the out
parameters zero-filled. -/
theorem pollOnce_identifier_replay_spec (s : LooperState) (t : Int) (inp : PollInput) :
    (∀ r j, scanResponses (s.mResponses.drop s.mResponseIndex) s.mResponseIndex
        = some (r, j) →
      (pollOnce s t inp).ret = r.request.ident ∧
      (pollOnce s t inp).outFd = r.request.fd ∧
      (pollOnce s t inp).outEvents = r.events ∧
      (pollOnce s t inp).outData = r.request.data ∧
      (pollOnce s t inp).usedInner = false ∧
      (pollOnce s t inp).state.mResponses = s.mResponses ∧
      (pollOnce s t inp).state.mResponseIndex = j ∧
      0 ≤ r.request.ident ∧
      (∃ k, (∀ r2 ∈ (s.mResponses.drop s.mResponseIndex).take k, r2.request.ident < 0) ∧
        (∃ tail, (s.mResponses.drop s.mResponseIndex).drop k = r :: tail) ∧
        j = s.mResponseIndex + k + 1)) ∧
    (scanResponses (s.mResponses.drop s.mResponseIndex) s.mResponseIndex = none →
      (pollOnce s t inp
        = pollOnceInnerStep { s with mResponseIndex := s.mResponses.length } t inp) ∧
      (∀ (s' : LooperState) (r : Response) (j : Nat),
        scanResponses (pollInner s' t inp).state.mResponses 0 = some (r, j) →
        (pollOnceInnerStep s' t inp).ret = r.request.ident ∧
        (pollOnceInnerStep s' t inp).outFd = r.request.fd ∧
        (pollOnceInnerStep s' t inp).outEvents = r.events ∧
        (pollOnceInnerStep s' t inp).outData = r.request.data ∧
        (pollOnceInnerStep s' t inp).state.mResponseIndex = j ∧
        (pollOnceInnerStep s' t inp).usedInner = true) ∧
      (∀ s' : LooperState,
        scanResponses (pollInner s' t inp).state.mResponses 0 = none →
        (pollOnceInnerStep s' t inp).ret = (pollInner s' t inp).result ∧
        (pollOnceInnerStep s' t inp).outFd = 0 ∧
        (pollOnceInnerStep s' t inp).outEvents = 0 ∧
        (pollOnceInnerStep s' t inp).outData = 0 ∧
        (pollOnceInnerStep s' t inp).usedInner = true)) := by
  constructor
  · intro r j hscan
    have hpo : pollOnce s t inp =
        { state := { s with mResponseIndex := j }
          ret := r.request.ident
          outFd := r.request.fd, outEvents := r.events, outData := r.request.data
          invoked := [], dispatched := [], usedInner := false } := by
      unfold pollOnce
      rw [hscan]
    obtain ⟨hident, k2, htake, hdrop, hj⟩ := scanResponses_spec _ _ _ _ hscan
    rw [hpo]
    exact ⟨rfl, rfl, rfl, rfl, rfl, rfl, rfl, hident, k2, htake, hdrop, hj⟩
  · intro hnone
    refine ⟨?_, ?_, ?_⟩
    · unfold pollOnce
      rw [hnone]
    · intro s' r j hscan
      unfold pollOnceInnerStep
      rw [hscan]
      exact ⟨rfl, rfl, rfl, rfl, rfl, rfl⟩
    · intro s' hscan
      unfold pollOnceInnerStep
      rw [hscan]
      exact ⟨rfl, rfl, rfl, rfl, rfl⟩

theorem pollOnce_identifier_replay_spec_witness :
    (pollOnce samplePending (-1) sampleInput).ret = 7 ∧
    (pollOnce samplePending (-1) sampleInput).outFd = 5 ∧
    (pollOnce samplePending (-1) sampleInput).outData = 11 ∧
    (pollOnce samplePending (-1) sampleInput).usedInner = false := by
  have h := (pollOnce_identifier_replay_spec samplePending (-1) sampleInput).1
    samplePendingResponse 1 (by decide)
  exact ⟨h.1, h.2.1, h.2.2.2.1, h.2.2.2.2.1⟩

/-- C2: After a second `addFd` on the same fd integer succeeds (erasing the
old `(seq, Request)` entry and pointing the fd index at the new sequence),
the old registration's sequence number is gone from the request table, no
callback invocation along any subsequent operation trace ever carries it
again, and a readiness item whose sequence number is not in the request table
is discarded without producing a `Response`. -/
theorem addFd_same_fd_old_callback_never_invoked (s : LooperState) (fd ident : Int)
    (events : Nat) (callback : Option Nat) (data : Nat) (k : AddFdKernel)
    (oldSeq : Nat) (hWF : WF s)
    (hold : alookup s.mSequenceNumberByFd fd = some oldSeq)
    (hret : (addFd s fd ident events callback data k).2 = 1) :
    alookup (addFd s fd ident events callback data k).1.mRequests oldSeq = none ∧
    (∀ ops : List Op,
      ∀ inv ∈ (runOps (addFd s fd ident events callback data k).1 ops).2,
        inv.seq ≠ oldSeq) ∧
    (∀ (reqs : List (Nat × Request)) (sq ev : Nat) (items : List KernelItem),
      alookup reqs sq = none →
      buildResponses reqs ({ seq := sq, events := ev } :: items)
        = buildResponses reqs items) := by
  have hdead := addFd_replace_dead s fd ident events callback data k oldSeq hWF hold hret
  exact ⟨hdead.1,
    fun ops inv hinv => runOps_invoked_ne oldSeq ops _ hdead inv hinv,
    buildResponses_skip⟩

theorem addFd_same_fd_old_callback_never_invoked_witness :
    alookup ((addFd sampleLooper 5 9 1 none 12 kernelOk).1.mRequests) 2 = none :=
  (addFd_same_fd_old_callback_never_invoked sampleLooper 5 9 1 none 12 kernelOk 2
    (by decide) (by decide) (by decide)).1

/-- C3: `removeFd(fd)` returns `0` when `fd` has no current registration,
leaving all state unchanged; otherwise it erases both the `(seq, Request)`
entry and the `(fd, seq)` entry — for every kernel outcome, so the erasure
precedes the kernel delete — tolerates a kernel delete failure with `EBADF`
or `ENOENT` by scheduling a rebuild, and returns `1`. -/
theorem removeFd_spec (s : LooperState) (fd : Int) (k : DelResult) :
    (alookup s.mSequenceNumberByFd fd = none → removeFd s fd k = (s, 0)) ∧
    (∀ sq : Nat, WF s → alookup s.mSequenceNumberByFd fd = some sq →
      alookup (removeFd s fd k).1.mSequenceNumberByFd fd = none ∧
      alookup (removeFd s fd k).1.mRequests sq = none ∧
      (k = DelResult.ok → (removeFd s fd k).2 = 1 ∧
        (removeFd s fd k).1.mEpollRebuildRequired = s.mEpollRebuildRequired) ∧
      (k = DelResult.badfdOrNoent → (removeFd s fd k).2 = 1 ∧
        (removeFd s fd k).1.mEpollRebuildRequired = true)) := by
  constructor
  · intro h
    unfold removeFd
    rw [h]
  · intro sq hWF hsome
    have hfwd := hWF.2.2.1.1 (fd, sq) (alookup_mem hsome)
    cases hl : alookup s.mRequests sq with
    | none => rw [hl] at hfwd; cases hfwd
    | some req =>
      rw [hl] at hfwd
      simp only [Option.map_some'] at hfwd
      have hreqfd : req.fd = fd := Option.some.inj hfwd
      have hrm : removeFd s fd k = removeSequenceNumberLocked s sq k := by
        unfold removeFd
        rw [hsome]
      rw [hrm]
      unfold removeSequenceNumberLocked
      rw [hl]
      have hself1 : alookup (aerase s.mRequests sq) sq = none :=
        alookup_aerase_self hWF.1
      have hself2 : alookup (aerase s.mSequenceNumberByFd req.fd) fd = none := by
        rw [hreqfd]
        exact alookup_aerase_self hWF.2.1
      cases k with
      | ok =>
        refine ⟨?_, ?_, ?_, ?_⟩
        · exact hself2
        · exact hself1
        · intro _
          exact ⟨rfl, rfl⟩
        · intro he
          cases he
      | badfdOrNoent =>
        refine ⟨?_, ?_, ?_, ?_⟩
        · rw [show (scheduleEpollRebuildLocked (removeSequenceNumberErased s sq req), 1).1.mSequenceNumberByFd
              = (removeSequenceNumberErased s sq req).mSequenceNumberByFd from
            scheduleEpollRebuildLocked_mSequenceNumberByFd _]
          exact hself2
        · rw [show (scheduleEpollRebuildLocked (removeSequenceNumberErased s sq req), 1).1.mRequests
              = (removeSequenceNumberErased s sq req).mRequests from
            scheduleEpollRebuildLocked_mRequests _]
          exact hself1
        · intro he
          cases he
        · intro _
          exact ⟨rfl, scheduleEpollRebuildLocked_flag _⟩
      | otherFailure =>
        refine ⟨?_, ?_, ?_, ?_⟩
        · rw [show (scheduleEpollRebuildLocked (removeSequenceNumberErased s sq req), (-1 : Int)).1.mSequenceNumberByFd
              = (removeSequenceNumberErased s sq req).mSequenceNumberByFd from
            scheduleEpollRebuildLocked_mSequenceNumberByFd _]
          exact hself2
        · rw [show (scheduleEpollRebuildLocked (removeSequenceNumberErased s sq req), (-1 : Int)).1.mRequests
              = (removeSequenceNumberErased s sq req).mRequests from
            scheduleEpollRebuildLocked_mRequests _]
          exact hself1
        · intro he
          cases he
        · intro he
          cases he

theorem removeFd_spec_witness :
    alookup ((removeFd sampleLooper 5 DelResult.ok).1.mSequenceNumberByFd) 5 = none ∧
    (removeFd sampleLooper 5 DelResult.ok).2 = 1 := by
  have h := (removeFd_spec sampleLooper 5 DelResult.ok).2 2 (by decide) (by decide)
  exact ⟨h.1, (h.2.2.1 rfl).1⟩

/-- C4: The agreement invariant between the fd index and the request table
(`fdSeqAgree`, part of `WF`: every `(fd, s)` index entry has a request with
sequence `s` and fd field `fd`, and every request is indexed under its fd) is
preserved by `addFd`, `removeFd`, `removeSequenceNumberLocked` and `pollOnce`
from any well-formed state; moreover in a well-formed state no two distinct
requests share an fd. -/
theorem fd_seq_tables_agree_preserved (s : LooperState) (h : WF s) :
    (∀ (fd ident : Int) (events : Nat) (callback : Option Nat) (data : Nat)
        (k : AddFdKernel), WF (addFd s fd ident events callback data k).1) ∧
    (∀ (fd : Int) (k : DelResult), WF (removeFd s fd k).1) ∧
    (∀ (sq : Nat) (k : DelResult), WF (removeSequenceNumberLocked s sq k).1) ∧
    (∀ (t : Int) (inp : PollInput), WF (pollOnce s t inp).state) ∧
    (∀ a b, a ∈ s.mRequests → b ∈ s.mRequests → a.2.fd = b.2.fd → a.1 = b.1) := by
  refine ⟨fun fd ident events cb data k => WF_addFd s fd ident events cb data k h,
    fun fd k => WF_removeFd s fd k h,
    fun sq k => WF_removeSequenceNumberLocked s sq k h,
    fun t inp => WF_pollOnce s t inp h, ?_⟩
  intro a b ha hb hfd
  have h1 := h.2.2.1.2 a ha
  have h2 := h.2.2.1.2 b hb
  rw [hfd] at h1
  rw [h1] at h2
  exact Option.some.inj h2

theorem fd_seq_tables_agree_preserved_witness :
    WF (removeFd sampleLooper 5 DelResult.ok).1 :=
  (fd_seq_tables_agree_preserved sampleLooper (by decide)).2.1 5 DelResult.ok

/-- C5: An enqueue inserts the new envelope at the first position whose
uptime is strictly greater than the new deadline (everything kept in front is
at or below it, the first element behind is strictly above), which keeps the
queue sorted by uptime in non-decreasing order; in a sorted queue every
earlier envelope with an equal (or smaller) deadline stays in front of the
new one, and the drain loop removes a prefix in queue order — so equal
deadlines dispatch in enqueue order. -/
theorem message_queue_sorted_and_stable (s : LooperState) (u : Int)
    (handler : Nat) (what : Int) (hs : MsgSorted s.mMessageEnvelopes) :
    MsgSorted (sendMessageAtTime s u handler what).1.mMessageEnvelopes ∧
    (sendMessageAtTime s u handler what).1.mMessageEnvelopes
      = s.mMessageEnvelopes.take (insertPosition u s.mMessageEnvelopes)
        ++ ({ uptime := u, handler := handler, what := what } : MessageEnvelope)
          :: s.mMessageEnvelopes.drop (insertPosition u s.mMessageEnvelopes) ∧
    (∀ e ∈ s.mMessageEnvelopes.take (insertPosition u s.mMessageEnvelopes),
      e.uptime ≤ u) ∧
    (∀ e, (s.mMessageEnvelopes.drop (insertPosition u s.mMessageEnvelopes)).head?
        = some e → u < e.uptime) ∧
    (∀ e ∈ s.mMessageEnvelopes, e.uptime ≤ u →
      e ∈ s.mMessageEnvelopes.take (insertPosition u s.mMessageEnvelopes)) ∧
    (∀ (clock : Nat → Int) (k : Nat) (q : List MessageEnvelope),
      (drainMessages clock k q).dispatched ++ (drainMessages clock k q).remaining
        = q) := by
  have hqe : (sendMessageAtTime s u handler what).1.mMessageEnvelopes
      = s.mMessageEnvelopes.take (insertPosition u s.mMessageEnvelopes)
        ++ ({ uptime := u, handler := handler, what := what } : MessageEnvelope)
          :: s.mMessageEnvelopes.drop (insertPosition u s.mMessageEnvelopes) := by
    unfold sendMessageAtTime
    split
    · rfl
    · rfl
  refine ⟨?_, hqe, (insertPosition_spec u _).1, (insertPosition_spec u _).2,
    fun e he hle => mem_take_insertPosition u _ hs e he hle, drainMessages_append⟩
  rw [hqe]
  exact MsgSorted_insert u handler what _ hs

theorem message_queue_sorted_and_stable_witness :
    MsgSorted (sendMessageAtTime sampleQueueLooper 100 1 3).1.mMessageEnvelopes :=
  (message_queue_sorted_and_stable sampleQueueLooper 100 1 3 (by decide)).1

/-- C6: `sendMessageAtTime` returns without calling `wake()` whenever the
loop is currently dispatching messages (`mSendingMessage` true); otherwise it
calls `wake()` if and only if the new envelope was inserted at position `0`;
insertion behind an at-or-earlier-deadline head issues no wake. -/
theorem sendMessageAtTime_wake_iff_new_head (s : LooperState) (u : Int)
    (handler : Nat) (what : Int) :
    (s.mSendingMessage = true → (sendMessageAtTime s u handler what).2 = false) ∧
    (s.mSendingMessage = false →
      ((sendMessageAtTime s u handler what).2 = true
        ↔ insertPosition u s.mMessageEnvelopes = 0)) ∧
    (∀ e rest, s.mMessageEnvelopes = e :: rest → e.uptime ≤ u →
      (sendMessageAtTime s u handler what).2 = false) := by
  refine ⟨?_, ?_, ?_⟩
  · intro h
    unfold sendMessageAtTime
    rw [if_pos h]
  · intro h
    unfold sendMessageAtTime
    rw [if_neg (by simp [h])]
    simp
  · intro e rest hq hle
    have hip : insertPosition u s.mMessageEnvelopes ≠ 0 := by
      rw [hq]
      simp [insertPosition, hle]
    unfold sendMessageAtTime
    split
    · rfl
    · show decide (insertPosition u s.mMessageEnvelopes = 0) = false
      exact decide_eq_false hip

theorem sendMessageAtTime_wake_iff_new_head_witness :
    (sendMessageAtTime sampleHeadLooper 100 1 9).2 = false :=
  (sendMessageAtTime_wake_iff_new_head sampleHeadLooper 100 1 9).2.2
    { uptime := 50, handler := 2, what := 3 } [] rfl (by decide)

/-- C7: The inner poll's result is `POLL_CALLBACK` exactly when a due message
or a callback response was dispatched; otherwise the result is `POLL_WAKE`
when a rebuild was required or the kernel wait failed with `EINTR`,
`POLL_ERROR` on any other wait failure, and `POLL_TIMEOUT` when the wait
returned zero events.  A pending non-negative identifier is returned verbatim
by `pollOnce`, and the result codes are `WAKE = -1`, `CALLBACK = -2`,
`TIMEOUT = -3`, `ERROR = -4`. -/
theorem pollInner_result_classification (s : LooperState) (t : Int) (inp : PollInput) :
    ((pollInner s t inp).result = POLL_CALLBACK ↔
      ((pollInner s t inp).dispatched ≠ [] ∨ (pollInner s t inp).invoked ≠ [])) ∧
    (s.mEpollRebuildRequired = true → (pollInner s t inp).dispatched = [] →
      (pollInner s t inp).result = POLL_WAKE) ∧
    (s.mEpollRebuildRequired = false → inp.wait = WaitOutcome.intr →
      (pollInner s t inp).dispatched = [] → (pollInner s t inp).result = POLL_WAKE) ∧
    (s.mEpollRebuildRequired = false → inp.wait = WaitOutcome.failed →
      (pollInner s t inp).dispatched = [] → (pollInner s t inp).result = POLL_ERROR) ∧
    (s.mEpollRebuildRequired = false → inp.wait = WaitOutcome.ready [] →
      (pollInner s t inp).dispatched = [] → (pollInner s t inp).result = POLL_TIMEOUT) ∧
    (∀ r j, scanResponses (s.mResponses.drop s.mResponseIndex) s.mResponseIndex
        = some (r, j) → (pollOnce s t inp).ret = r.request.ident) ∧
    POLL_WAKE = -1 ∧ POLL_CALLBACK = -2 ∧ POLL_TIMEOUT = -3 ∧ POLL_ERROR = -4 := by
  have hbase : (innerAfterWait s inp.wait).2 = POLL_WAKE ∨
      (innerAfterWait s inp.wait).2 = POLL_ERROR ∨
      (innerAfterWait s inp.wait).2 = POLL_TIMEOUT :=
    pollInnerBase_result (innerStart s) inp.wait
  refine ⟨?_, ?_, ?_, ?_, ?_, ?_, rfl, rfl, rfl, rfl⟩
  · rw [pollInner_result_eq]
    by_cases hi : (pollInner s t inp).invoked = []
    · by_cases hdp : (pollInner s t inp).dispatched = []
      · rw [if_pos hi, if_pos hdp]
        constructor
        · intro hres
          rcases hbase with hb | hb | hb <;> rw [hb] at hres <;>
            exact absurd hres (by decide)
        · intro hor
          rcases hor with hor | hor
          · exact absurd hdp hor
          · exact absurd hi hor
      · rw [if_pos hi, if_neg hdp]
        simp [hdp]
    · rw [if_neg hi]
      simp [hi]
  · intro hreb hdp
    have hresp : (innerAfterWait s inp.wait).1.mResponses = [] := by
      rw [innerAfterWait_rebuild s inp.wait hreb]
      rfl
    have hi := pollInner_invoked_nil s t inp hresp
    rw [pollInner_result_eq, if_pos hi, if_pos hdp,
      innerAfterWait_rebuild s inp.wait hreb]
  · intro hflag hw hdp
    have hresp : (innerAfterWait s inp.wait).1.mResponses = [] := by
      rw [hw, innerAfterWait_intr s hflag]
      rfl
    have hi := pollInner_invoked_nil s t inp hresp
    rw [pollInner_result_eq, if_pos hi, if_pos hdp, hw, innerAfterWait_intr s hflag]
  · intro hflag hw hdp
    have hresp : (innerAfterWait s inp.wait).1.mResponses = [] := by
      rw [hw, innerAfterWait_failed s hflag]
      rfl
    have hi := pollInner_invoked_nil s t inp hresp
    rw [pollInner_result_eq, if_pos hi, if_pos hdp, hw, innerAfterWait_failed s hflag]
  · intro hflag hw hdp
    have hresp : (innerAfterWait s inp.wait).1.mResponses = [] := by
      rw [hw, innerAfterWait_timeout s hflag]
      rfl
    have hi := pollInner_invoked_nil s t inp hresp
    rw [pollInner_result_eq, if_pos hi, if_pos hdp, hw, innerAfterWait_timeout s hflag]
  · intro r j hscan
    unfold pollOnce
    rw [hscan]

theorem pollInner_result_classification_witness :
    (pollInner sampleLooper 5 sampleIntrInput).result = POLL_WAKE :=
  (pollInner_result_classification sampleLooper 5 sampleIntrInput).2.2.1
    (by decide) (by decide) (by decide)

/-- A successful fresh-fd `addFd` stores the request under the new sequence
number and indexes the fd to it. -/
theorem addFdNoEpoch_success_stores (s : LooperState) (seq : Nat)
    (request : Request) (k : AddFdKernel)
    (h1 : (addFdNoEpoch s seq request k).2 = 1) :
    alookup (addFdNoEpoch s seq request k).1.mSequenceNumberByFd request.fd
      = some seq ∧
    alookup (addFdNoEpoch s seq request k).1.mRequests seq = some request := by
  obtain ⟨ka, km, kf⟩ := k
  unfold addFdNoEpoch at h1 ⊢
  cases ka with
  | ok =>
    refine ⟨?_, ?_⟩
    · show alookup ((request.fd, seq) :: s.mSequenceNumberByFd) request.fd = some seq
      simp [alookup]
    · show alookup ((seq, request) :: s.mRequests) seq = some request
      simp [alookup]
  | enoent =>
    have h2 : (-1 : Int) = 1 := h1
    exact absurd h2 (by decide)
  | otherFailure =>
    have h2 : (-1 : Int) = 1 := h1
    exact absurd h2 (by decide)

/-- A successful replacing `addFd` stores the new request and repoints the fd
index at the new sequence number. -/
theorem addFdReplace_success_stores (s : LooperState) (seq oldSeq : Nat)
    (request : Request) (k : AddFdKernel)
    (hold : alookup s.mSequenceNumberByFd request.fd = some oldSeq)
    (h1 : (addFdReplace s seq oldSeq request k).2 = 1) :
    alookup (addFdReplace s seq oldSeq request k).1.mSequenceNumberByFd request.fd
      = some seq ∧
    alookup (addFdReplace s seq oldSeq request k).1.mRequests seq = some request := by
  obtain ⟨ka, km, kf⟩ := k
  unfold addFdReplace at h1 ⊢
  cases km with
  | ok =>
    refine ⟨?_, ?_⟩
    · show alookup (aset s.mSequenceNumberByFd request.fd seq) request.fd = some seq
      exact alookup_aset_self seq hold
    · show alookup ((seq, request) :: aerase s.mRequests oldSeq) seq = some request
      simp [alookup]
  | enoent =>
    cases kf with
    | ok =>
      refine ⟨?_, ?_⟩
      · show alookup (scheduleEpollRebuildLocked
            (addFdReplaceStored s seq oldSeq request)).mSequenceNumberByFd request.fd
          = some seq
        rw [scheduleEpollRebuildLocked_mSequenceNumberByFd]
        exact alookup_aset_self seq hold
      · show alookup (scheduleEpollRebuildLocked
            (addFdReplaceStored s seq oldSeq request)).mRequests seq = some request
        rw [scheduleEpollRebuildLocked_mRequests]
        show alookup ((seq, request) :: aerase s.mRequests oldSeq) seq = some request
        simp [alookup]
    | enoent =>
      have h2 : (-1 : Int) = 1 := h1
      exact absurd h2 (by decide)
    | otherFailure =>
      have h2 : (-1 : Int) = 1 := h1
      exact absurd h2 (by decide)
  | otherFailure =>
    have h2 : (-1 : Int) = 1 := h1
    exact absurd h2 (by decide)

/-- C8: `addFd` with a null callback returns `-1` with no side effect when
the loop was not prepared with `ALLOW_NON_CALLBACKS` or when `ident < 0`;
when a callback is supplied, the stored request's ident is forced to
`POLL_CALLBACK` regardless of the ident argument; and `addFd` only ever
returns `1` (success) or `-1`. -/
theorem addFd_argument_and_ident_spec (s : LooperState) (fd ident : Int)
    (events : Nat) (data : Nat) (k : AddFdKernel) :
    (s.mAllowNonCallbacks = false → addFd s fd ident events none data k = (s, -1)) ∧
    (ident < 0 → addFd s fd ident events none data k = (s, -1)) ∧
    (∀ c : Nat, (addFd s fd ident events (some c) data k).2 = 1 →
      ∃ sq req,
        alookup (addFd s fd ident events (some c) data k).1.mSequenceNumberByFd fd
          = some sq ∧
        alookup (addFd s fd ident events (some c) data k).1.mRequests sq = some req ∧
        req.ident = POLL_CALLBACK ∧ req.fd = fd ∧ req.data = data) ∧
    (∀ callback : Option Nat,
      (addFd s fd ident events callback data k).2 = 1 ∨
      (addFd s fd ident events callback data k).2 = -1) := by
  refine ⟨?_, ?_, ?_, ?_⟩
  · intro h
    unfold addFd
    rw [if_pos ⟨rfl, h⟩]
  · intro h
    unfold addFd
    by_cases ha : s.mAllowNonCallbacks = false
    · rw [if_pos ⟨rfl, ha⟩]
    · rw [if_neg (fun hc => ha hc.2), if_pos ⟨rfl, h⟩]
  · intro c h1
    have hred : addFd s fd ident events (some c) data k
        = match alookup (allocSeq s).1.mSequenceNumberByFd fd with
          | none => addFdNoEpoch (allocSeq s).1 (allocSeq s).2
              (mkRequest fd ident events (some c) data) k
          | some oldSeq => addFdReplace (allocSeq s).1 (allocSeq s).2 oldSeq
              (mkRequest fd ident events (some c) data) k := by
      unfold addFd
      rw [if_neg (by simp), if_neg (by simp)]
    rw [hred] at h1 ⊢
    cases heq : alookup (allocSeq s).1.mSequenceNumberByFd fd with
    | none =>
      rw [heq] at h1
      have h2 : (addFdNoEpoch (allocSeq s).1 (allocSeq s).2
          (mkRequest fd ident events (some c) data) k).2 = 1 := h1
      have hst := addFdNoEpoch_success_stores _ _ _ _ h2
      exact ⟨(allocSeq s).2, mkRequest fd ident events (some c) data,
        hst.1, hst.2, rfl, rfl, rfl⟩
    | some oldSeq =>
      rw [heq] at h1
      have h2 : (addFdReplace (allocSeq s).1 (allocSeq s).2 oldSeq
          (mkRequest fd ident events (some c) data) k).2 = 1 := h1
      have hold2 : alookup (allocSeq s).1.mSequenceNumberByFd
          (mkRequest fd ident events (some c) data).fd = some oldSeq := heq
      have hst := addFdReplace_success_stores _ _ _ _ _ hold2 h2
      exact ⟨(allocSeq s).2, mkRequest fd ident events (some c) data,
        hst.1, hst.2, rfl, rfl, rfl⟩
  · intro callback
    unfold addFd
    split
    · right; rfl
    split
    · right; rfl
    split
    · unfold addFdNoEpoch
      cases k.addResult
      · left; rfl
      · right; rfl
      · right; rfl
    · unfold addFdReplace
      cases k.modResult
      · left; rfl
      · cases k.fallbackAddResult
        · left; rfl
        · right; rfl
        · right; rfl
      · right; rfl

theorem addFd_argument_and_ident_spec_witness :
    addFd (initialLooper false) 5 7 1 none 11 kernelOk = (initialLooper false, -1) :=
  (addFd_argument_and_ident_spec (initialLooper false) 5 7 1 11 kernelOk).1 rfl

/-- C9: With a zero caller timeout no adjustment happens and the kernel wait
receives timeout `0` (a non-blocking poll); with a nonzero caller timeout and
a pending message, the wait timeout is the time until the head message's
deadline when the caller timeout is negative (infinite), and otherwise the
smaller of the two. -/
theorem pollInner_timeout_adjustment_spec :
    (∀ u now : Int, adjustTimeout 0 u now = 0) ∧
    (∀ t u now : Int, t ≠ 0 → u ≠ LLONG_MAX →
      adjustTimeout t u now =
        if t < 0 then toMillisecondTimeoutDelay now u
        else min t (toMillisecondTimeoutDelay now u)) ∧
    (∀ (s : LooperState) (t : Int) (inp : PollInput),
      (pollInner s t inp).waitTimeout
        = adjustTimeout t s.mNextMessageUptime inp.now0) ∧
    (∀ (s : LooperState) (inp : PollInput), (pollInner s 0 inp).waitTimeout = 0) := by
  have hz : ∀ u now : Int, adjustTimeout 0 u now = 0 := by
    intro u now
    unfold adjustTimeout
    rw [if_neg]
    simp
  refine ⟨hz, ?_, fun s t inp => rfl,
    fun s inp => hz s.mNextMessageUptime inp.now0⟩
  intro t u now ht hu
  have hnn := toMillisecondTimeoutDelay_nonneg now u
  unfold adjustTimeout
  rw [if_pos ⟨ht, hu⟩]
  by_cases hlt : t < 0
  · rw [if_pos ⟨hnn, Or.inl hlt⟩, if_pos hlt]
  · rw [if_neg hlt]
    by_cases hm2 : toMillisecondTimeoutDelay now u < t
    · rw [if_pos ⟨hnn, Or.inr hm2⟩]
      exact (min_eq_right (le_of_lt hm2)).symm
    · rw [if_neg (fun hc => hm2 (hc.2.resolve_left hlt))]
      exact (min_eq_left (le_of_not_lt hm2)).symm

theorem pollInner_timeout_adjustment_spec_witness :
    adjustTimeout 5 100 0
      = if (5 : Int) < 0 then toMillisecondTimeoutDelay 0 100
        else min 5 (toMillisecondTimeoutDelay 0 100) :=
  pollInner_timeout_adjustment_spec.2.1 5 100 0 (by decide) (by decide)

/-- C10: `pollAll` never returns `POLL_CALLBACK`: with `timeout ≤ 0` it
repeatedly consumes `pollOnce` results until one differs from `POLL_CALLBACK`
and returns it; with a positive timeout each `POLL_CALLBACK` result leads to
a recomputation of the remaining time against the deadline fixed at entry,
returning `POLL_TIMEOUT` once it has elapsed. -/
theorem pollAll_never_returns_callback :
    (∀ (t n : Int) (rs cs : List Int) (r : Int),
      pollAll t n rs cs = some r → r ≠ POLL_CALLBACK) ∧
    (∀ (t n : Int) (rs cs : List Int), t ≤ 0 →
      pollAll t n rs cs
        = (rs.dropWhile (fun x => decide (x = POLL_CALLBACK))).head?) ∧
    (∀ (t n r : Int) (rs : List Int) (now : Int) (cs : List Int), 0 < t →
      pollAll t n (r :: rs) (now :: cs)
        = if r ≠ POLL_CALLBACK then some r
          else if toMillisecondTimeoutDelay now (n + t * 1000000) = 0
          then some POLL_TIMEOUT
          else pollAllLoopPos (n + t * 1000000) rs cs) := by
  refine ⟨?_, ?_, ?_⟩
  · intro t n rs cs r h
    unfold pollAll at h
    split at h
    · exact pollAllLoopZero_ne_callback rs r h
    · exact pollAllLoopPos_ne_callback _ rs cs r h
  · intro t n rs cs ht
    unfold pollAll
    rw [if_pos ht]
    exact pollAllLoopZero_head rs
  · intro t n r rs now cs ht
    unfold pollAll
    rw [if_neg (by omega)]
    rfl

theorem pollAll_never_returns_callback_witness :
    ((-1 : Int) ≠ POLL_CALLBACK) ∧
      pollAll 0 0 [POLL_CALLBACK, -1] [] = some (-1) :=
  ⟨pollAll_never_returns_callback.1 0 0 [POLL_CALLBACK, -1] [] (-1) (by decide),
    by decide⟩

end LooperModel
